import Mathlib

/-!
Verification development for the suno-parser-mcp extraction pipeline
(src server, the full multi-strategy variant).  The TypeScript source is
shallowly embedded: JSON values become an inductive type, JSON.parse a
fuel-bounded recursive-descent function, each regex scan a dedicated
scanning function over character lists, and the two route handlers become
total Lean functions from the fetched HTML text to a response value.
Throwing inside the extraction (caught by the catch-all handler in the
source) is modelled with Except.
-/

set_option maxRecDepth 8000

namespace SunoParse

/-- Single quote character, kept out of literals for lexical hygiene. -/
def squote : Char := Char.ofNat 39

/-- JSON values as produced by JSON.parse in the source.  Numbers keep the
raw literal text; no claim depends on numeric value beyond zero-ness.
Object fields keep first-occurrence order, later duplicate keys replace the
value in place, matching JS object semantics for string keys. -/
inductive Json where
  | null
  | bool (b : Bool)
  | num (raw : String)
  | str (s : String)
  | arr (items : List Json)
  | obj (fields : List (String × Json))

/-- Field lookup inside an object literal list. -/
def lookupKv : List (String × Json) → String → Option Json
  | [], _ => none
  | (k0, v0) :: rest, k => if k0 = k then some v0 else lookupKv rest k

/-- Insert a key, replacing in place when the key already exists. -/
def insertKv : List (String × Json) → String → Json → List (String × Json)
  | [], k, v => [(k, v)]
  | (k0, v0) :: rest, k, v =>
    if k0 = k then (k0, v) :: rest else (k0, v0) :: insertKv rest k v

/-- Property access j.k on a JSON value: objects look the key up, every
other value (including null) yields undefined, modelled as none. -/
def Json.get : Json → String → Option Json
  | .obj kvs, k => lookupKv kvs k
  | _, _ => none

/-- Optional-chaining access o?.k with undefined and null collapsed to
none. -/
def optGet (o : Option Json) (k : String) : Option Json :=
  o.bind (fun j => j.get k)

/-- Zero test for a JSON numeric literal: zero iff the mantissa (the part
before any exponent marker) holds no digit 1..9. -/
def numIsZero (raw : String) : Bool :=
  (raw.data.takeWhile (fun c => !(c = 'e' || c = 'E'))).all
    (fun c => !(('1').toNat ≤ c.toNat && c.toNat ≤ ('9').toNat))

/-- JS truthiness of a possibly-absent value: undefined, null, false,
zero and the empty string are falsy; objects and arrays are truthy. -/
def truthy : Option Json → Bool
  | none => false
  | some .null => false
  | some (.bool b) => b
  | some (.num raw) => !numIsZero raw
  | some (.str s) => s ≠ ""
  | some (.arr _) => true
  | some (.obj _) => true

/-- JS a || b on possibly-absent values. -/
def jsOr (a b : Option Json) : Option Json :=
  if truthy a then a else b

/-- String coercion used by template literals, following
Array.prototype.toString and Object.prototype.toString. -/
def jsTemplate : Json → String
  | .null => "null"
  | .bool true => "true"
  | .bool false => "false"
  | .num raw => raw
  | .str s => s
  | .arr items => String.intercalate "," (items.map (fun j =>
      match j with
      | .null => ""
      | .str s => s
      | .num raw => raw
      | .bool true => "true"
      | .bool false => "false"
      | _ => "[object Object]"))
  | .obj _ => "[object Object]"

/-! JSON.parse, modelled as fuel-bounded recursive descent over the
character list.  The fuel passed at top level is ample: every recursive
step consumes at least one input character. -/

/-- Whitespace skipped by the JSON grammar. -/
def skipWsJson (cs : List Char) : List Char :=
  cs.dropWhile (fun c => c = ' ' || c = '\t' || c = '\n' || c = '\r')

/-- Hex digit value. -/
def hexVal (c : Char) : Option Nat :=
  if ('0').toNat ≤ c.toNat && c.toNat ≤ ('9').toNat then some (c.toNat - ('0').toNat)
  else if ('a').toNat ≤ c.toNat && c.toNat ≤ ('f').toNat then some (c.toNat - ('a').toNat + 10)
  else if ('A').toNat ≤ c.toNat && c.toNat ≤ ('F').toNat then some (c.toNat - ('A').toNat + 10)
  else none

/-- Single-character JSON string escapes. -/
def escChar (c : Char) : Option Char :=
  if c = '"' then some '"'
  else if c = '\\' then some '\\'
  else if c = '/' then some '/'
  else if c = 'b' then some (Char.ofNat 8)
  else if c = 'f' then some (Char.ofNat 12)
  else if c = 'n' then some '\n'
  else if c = 'r' then some '\r'
  else if c = 't' then some '\t'
  else none

/-- Body of a JSON string after the opening quote: returns the decoded
characters and the remainder after the closing quote.  Raw control
characters are rejected, as JSON.parse does. -/
def parseStrAux : List Char → Option (List Char × List Char)
  | [] => none
  | '"' :: rest => some ([], rest)
  | '\\' :: 'u' :: h1 :: h2 :: h3 :: h4 :: r =>
    match hexVal h1, hexVal h2, hexVal h3, hexVal h4 with
    | some a, some b, some c, some d =>
      (parseStrAux r).map (fun p => (Char.ofNat (((a * 16 + b) * 16 + c) * 16 + d) :: p.1, p.2))
    | _, _, _, _ => none
  | '\\' :: e :: r =>
    match escChar e with
    | some c => (parseStrAux r).map (fun p => (c :: p.1, p.2))
    | none => none
  | ['\\'] => none
  | c :: rest =>
    if c.toNat < 32 then none
    else (parseStrAux rest).map (fun p => (c :: p.1, p.2))

/-- Digit run. -/
def spanDigits (cs : List Char) : List Char × List Char :=
  (cs.takeWhile Char.isDigit, cs.dropWhile Char.isDigit)

/-- Exponent part of a JSON number, possibly empty. -/
def parseNumExp (cs : List Char) : Option (List Char × List Char) :=
  match cs with
  | 'e' :: r =>
    match r with
    | '+' :: r2 => (spanDigits r2).1.headD ' ' |> (fun _ =>
        if (spanDigits r2).1 = [] then none
        else some ('e' :: '+' :: (spanDigits r2).1, (spanDigits r2).2))
    | '-' :: r2 =>
        if (spanDigits r2).1 = [] then none
        else some ('e' :: '-' :: (spanDigits r2).1, (spanDigits r2).2)
    | _ =>
        if (spanDigits r).1 = [] then none
        else some ('e' :: (spanDigits r).1, (spanDigits r).2)
  | 'E' :: r =>
    match r with
    | '+' :: r2 =>
        if (spanDigits r2).1 = [] then none
        else some ('E' :: '+' :: (spanDigits r2).1, (spanDigits r2).2)
    | '-' :: r2 =>
        if (spanDigits r2).1 = [] then none
        else some ('E' :: '-' :: (spanDigits r2).1, (spanDigits r2).2)
    | _ =>
        if (spanDigits r).1 = [] then none
        else some ('E' :: (spanDigits r).1, (spanDigits r).2)
  | _ => some ([], cs)

/-- Fraction part of a JSON number, possibly empty. -/
def parseNumFrac (cs : List Char) : Option (List Char × List Char) :=
  match cs with
  | '.' :: r =>
    if (spanDigits r).1 = [] then none
    else some ('.' :: (spanDigits r).1, (spanDigits r).2)
  | _ => some ([], cs)

/-- JSON number literal: optional sign, integer part without leading
zeros, optional fraction, optional exponent. -/
def parseNumber (cs : List Char) : Option (List Char × List Char) :=
  let signed : List Char × List Char :=
    match cs with
    | '-' :: r => (['-'], r)
    | _ => ([], cs)
  let ip : Option (List Char × List Char) :=
    match signed.2 with
    | '0' :: r => some (['0'], r)
    | c :: r =>
      if c.isDigit then some (c :: (spanDigits r).1, (spanDigits r).2) else none
    | [] => none
  match ip with
  | none => none
  | some (ipart, rest1) =>
    match parseNumFrac rest1 with
    | none => none
    | some (fpart, rest2) =>
      match parseNumExp rest2 with
      | none => none
      | some (epart, rest3) => some (signed.1 ++ ipart ++ fpart ++ epart, rest3)

mutual

/-- JSON value. -/
def parseValue : Nat → List Char → Option (Json × List Char)
  | 0, _ => none
  | fuel + 1, cs0 =>
    let cs := skipWsJson cs0
    match cs with
    | 'n' :: 'u' :: 'l' :: 'l' :: r => some (.null, r)
    | 't' :: 'r' :: 'u' :: 'e' :: r => some (.bool true, r)
    | 'f' :: 'a' :: 'l' :: 's' :: 'e' :: r => some (.bool false, r)
    | '"' :: r => (parseStrAux r).map (fun p => (.str (String.mk p.1), p.2))
    | '{' :: r => parseMembers fuel (skipWsJson r) [] true
    | '[' :: r => parseItems fuel (skipWsJson r) [] true
    | _ => (parseNumber cs).map (fun p => (.num (String.mk p.1), p.2))

/-- Object members; allowEnd permits an immediate closing brace (empty
object or after the opening brace only, never after a comma). -/
def parseMembers : Nat → List Char → List (String × Json) → Bool → Option (Json × List Char)
  | 0, _, _, _ => none
  | fuel + 1, cs, acc, allowEnd =>
    match cs with
    | '}' :: r => if allowEnd then some (.obj acc, r) else none
    | '"' :: r =>
      match parseStrAux r with
      | none => none
      | some (kChars, rest1) =>
        match skipWsJson rest1 with
        | ':' :: rest2 =>
          match parseValue fuel rest2 with
          | none => none
          | some (v, rest3) =>
            let acc2 := insertKv acc (String.mk kChars) v
            match skipWsJson rest3 with
            | ',' :: rest4 => parseMembers fuel (skipWsJson rest4) acc2 false
            | '}' :: rest4 => some (.obj acc2, rest4)
            | _ => none
        | _ => none
    | _ => none

/-- Array items; allowEnd permits an immediate closing bracket. -/
def parseItems : Nat → List Char → List Json → Bool → Option (Json × List Char)
  | 0, _, _, _ => none
  | fuel + 1, cs, acc, allowEnd =>
    match cs with
    | ']' :: r => if allowEnd then some (.arr acc.reverse, r) else none
    | _ =>
      match parseValue fuel cs with
      | none => none
      | some (v, rest1) =>
        match skipWsJson rest1 with
        | ',' :: rest2 => parseItems fuel (skipWsJson rest2) (v :: acc) false
        | ']' :: rest2 => some (.arr (v :: acc).reverse, rest2)
        | _ => none

end

/-- JSON.parse: parse one value and require only whitespace after it. -/
def Json.parse (s : String) : Option Json :=
  match parseValue (2 * s.length + 2) s.data with
  | some (v, rest) => if skipWsJson rest = [] then some v else none
  | none => none

/-! Text cleaner, translated from the clean helper of the source
(lines 274-281): nbsp to space, strip tag spans, collapse whitespace runs
to one space, collapse runs of three or more newlines to two, trim, and
map the empty result to null. -/

/-- Whitespace class of JS regexes and String.prototype.trim. -/
def isJsWhite (c : Char) : Bool :=
  c = ' ' || c = '\t' || c = '\n' || c = '\r' ||
  c = Char.ofNat 11 || c = Char.ofNat 12 ||
  c = Char.ofNat 160 || c = Char.ofNat 0x1680 ||
  (0x2000 ≤ c.toNat && c.toNat ≤ 0x200a) ||
  c = Char.ofNat 0x2028 || c = Char.ofNat 0x2029 || c = Char.ofNat 0x202f ||
  c = Char.ofNat 0x205f || c = Char.ofNat 0x3000 || c = Char.ofNat 0xfeff

/-- Replace non-breaking spaces by ordinary spaces. -/
def nbspToSpace (cs : List Char) : List Char :=
  cs.map (fun c => if c = Char.ofNat 160 then ' ' else c)

/-- Split at the first greater-than sign: some (pre, post) when found. -/
def splitAtGt : List Char → Option (List Char × List Char)
  | [] => none
  | c :: rest =>
    if c = '>' then some ([], rest)
    else
      match splitAtGt rest with
      | some (pre, post) => some (c :: pre, post)
      | none => none

mutual

/-- Strip tag spans matching the regex of a less-than sign, one or more
characters other than greater-than, then a greater-than sign; scanning is
left to right and non-overlapping, as String.prototype.replace with the
global flag does.  On a less-than sign the scan buffers until the first
greater-than sign: a nonempty buffered span is dropped, an immediate
greater-than sign or a missing one emits the span verbatim, matching the
advance-and-retry behaviour of the engine. -/
def stripTags : List Char → List Char
  | [] => []
  | c :: rest =>
    if c = '<' then stripAux rest ['<']
    else c :: stripTags rest

/-- Buffered scan inside a potential tag; the reversed buffer holds the
opening angle and the span consumed so far. -/
def stripAux : List Char → List Char → List Char
  | [], bufRev => bufRev.reverse
  | c :: rest, bufRev =>
    if c = '>' then
      if bufRev = ['<'] then '<' :: '>' :: stripTags rest else stripTags rest
    else stripAux rest (c :: bufRev)

end

mutual

/-- Collapse every whitespace run to a single ordinary space. -/
def collapseWs : List Char → List Char
  | [] => []
  | c :: rest =>
    if isJsWhite c then ' ' :: wsSkip rest
    else c :: collapseWs rest

/-- Rest of a whitespace run being collapsed. -/
def wsSkip : List Char → List Char
  | [] => []
  | c :: rest =>
    if isJsWhite c then wsSkip rest
    else c :: collapseWs rest

end

/-- Emitted form of a run of newlines: two when the run has three or
more. -/
def nlEmit (n : Nat) : List Char :=
  if n ≥ 3 then ['\n', '\n'] else List.replicate n '\n'

mutual

/-- Collapse every run of three or more newlines to exactly two. -/
def collapseNl : List Char → List Char
  | [] => []
  | c :: rest =>
    if c = '\n' then nlRun 1 rest
    else c :: collapseNl rest

/-- Rest of a newline run being collapsed. -/
def nlRun : Nat → List Char → List Char
  | n, [] => nlEmit n
  | n, c :: rest =>
    if c = '\n' then nlRun (n + 1) rest
    else nlEmit n ++ (c :: collapseNl rest)

end

/-- Trim both ends, using the JS whitespace class. -/
def trimJs (cs : List Char) : List Char :=
  ((cs.dropWhile isJsWhite).reverse.dropWhile isJsWhite).reverse

/-- Full cleaning pipeline on a character list. -/
def cleanList (cs : List Char) : List Char :=
  trimJs (collapseNl (collapseWs (stripTags (nbspToSpace cs))))

/-- Clean on a nullable string, with the final empty-to-null mapping of
the source. -/
def cleanO (s : Option String) : Option String :=
  match s with
  | none => none
  | some t =>
    let r := cleanList t.data
    if r = [] then none else some (String.mk r)

/-! Generic scanning utilities shared by the regex translations. -/

/-- Split at the first occurrence of a literal pattern: some (pre, post)
with the input equal to pre, then the pattern, then post. -/
def listSplit (pat : List Char) : List Char → Option (List Char × List Char)
  | [] => none
  | c :: rest =>
    if pat.isPrefixOf (c :: rest) then some ([], (c :: rest).drop pat.length)
    else
      match listSplit pat rest with
      | some (pre, post) => some (c :: pre, post)
      | none => none

/-- Case-insensitive prefix test (ASCII folding via Char.toLower). -/
def isPrefixCi : List Char → List Char → Bool
  | [], _ => true
  | _ :: _, [] => false
  | p :: ps, c :: cs => p.toLower = c.toLower && isPrefixCi ps cs

/-- Case-insensitive variant of listSplit. -/
def listSplitCi (pat : List Char) : List Char → Option (List Char × List Char)
  | [] => none
  | c :: rest =>
    if isPrefixCi pat (c :: rest) then some ([], (c :: rest).drop pat.length)
    else
      match listSplitCi pat rest with
      | some (pre, post) => some (c :: pre, post)
      | none => none

/-- Substring containment. -/
def containsSub (pat cs : List Char) : Bool :=
  (listSplit pat cs).isSome

/-- Case-insensitive substring containment. -/
def containsSubCi (pat cs : List Char) : Bool :=
  (listSplitCi pat cs).isSome

/-- Global replacement of a two-character pattern by one character,
scanning left to right without overlap. -/
def replace2 (x y z : Char) : List Char → List Char
  | [] => []
  | [c] => [c]
  | c1 :: c2 :: rest =>
    if c1 = x && c2 = y then z :: replace2 x y z rest
    else c1 :: replace2 x y z (c2 :: rest)

/-- Global decoding of backslash-u escapes with four hex digits (either
case), via String.fromCharCode. -/
def replaceU : List Char → List Char
  | '\\' :: 'u' :: h1 :: h2 :: h3 :: h4 :: rest =>
    match hexVal h1, hexVal h2, hexVal h3, hexVal h4 with
    | some a, some b, some c, some d =>
      Char.ofNat (((a * 16 + b) * 16 + c) * 16 + d) :: replaceU rest
    | _, _, _, _ => '\\' :: replaceU ('u' :: h1 :: h2 :: h3 :: h4 :: rest)
  | c :: rest => c :: replaceU rest
  | [] => []

/-- Replacement of the first occurrence of a literal pattern by nothing,
as String.prototype.replace with a plain string argument does. -/
def replaceFirstLit (pat cs : List Char) : List Char :=
  match listSplit pat cs with
  | some (pre, post) => pre ++ post
  | none => cs

/-! Locator strategy 1: the legacy embedded-JSON script tag. -/

/-- Opening literal of the regex for the legacy script tag. -/
def nextDataOpen : List Char :=
  ("<script id=\"__NEXT_DATA__\" type=\"application/json\">").data

/-- Closing script literal. -/
def scriptCloseLit : List Char := ("</script>").data

/-- Capture of the legacy-script regex.  The lazy dot capture cannot cross
a newline (the regex has no dotall flag), so an occurrence whose body up to
the first closing literal holds a newline fails, and scanning resumes at
the next occurrence of the opening literal. -/
def nextDataCaptureAux : Nat → List Char → Option (List Char)
  | 0, _ => none
  | fuel + 1, cs =>
    match listSplit nextDataOpen cs with
    | none => none
    | some (_, post) =>
      match listSplit scriptCloseLit post with
      | none => none
      | some (body, _) =>
        if body.contains '\n' then nextDataCaptureAux fuel post else some body

/-- Legacy-script capture with ample fuel. -/
def nextDataCapture (cs : List Char) : Option (List Char) :=
  nextDataCaptureAux (cs.length + 1) cs

/-! Locator strategy 3 support: every script tag of the page, as matched
by the dotall global script regex.  The open-tag part runs to the first
greater-than sign, the lazy body to the first closing literal. -/

/-- Script open literal. -/
def scriptOpenLit : List Char := ("<script").data

/-- Full matches of the global script-tag regex, in order.  When the open
tag never closes or the closing literal is missing, no further match can
exist later, matching the advance-and-retry behaviour of the engine. -/
def allScriptsAux : Nat → List Char → List (List Char)
  | 0, _ => []
  | fuel + 1, cs =>
    match listSplit scriptOpenLit cs with
    | none => []
    | some (_, afterOpen) =>
      match splitAtGt afterOpen with
      | none => []
      | some (tagRest, afterGt) =>
        match listSplit scriptCloseLit afterGt with
        | none => []
        | some (content, afterClose) =>
          (scriptOpenLit ++ tagRest ++ '>' :: (content ++ scriptCloseLit)) ::
            allScriptsAux fuel afterClose

/-- All script-tag matches with ample fuel. -/
def allScriptMatches (cs : List Char) : List (List Char) :=
  allScriptsAux (cs.length + 1) cs

/-- Group capture of the non-global script regex applied to one match:
the body between the first closing angle of the open tag and the first
closing literal. -/
def scriptContent (s : List Char) : Option (List Char) :=
  match listSplit scriptOpenLit s with
  | none => none
  | some (_, afterOpen) =>
    match splitAtGt afterOpen with
    | none => none
    | some (_, afterGt) =>
      match listSplit scriptCloseLit afterGt with
      | none => none
      | some (content, _) => some content

/-! Locator strategy 2: streamed chunks pushed through
self.__next_f.push. -/

/-- Push-call opening literal. -/
def nextfOpenLit : List Char := ("self.__next_f.push([1,").data

/-- Body of the chunk string literal per the greedy group of the chunk
regex: quotes preceded by a backslash can be crossed, the capture is the
longest one whose closing quote is followed by a bracket and parenthesis.
Returns the capture and the remainder after the closing sequence. -/
def chunkBodyAux : List Char → Char → List Char → Option (List Char × List Char) →
    Option (List Char × List Char)
  | [], _, _, best => best
  | '"' :: rest, prev, accRev, best =>
    let best2 : Option (List Char × List Char) :=
      match rest with
      | ']' :: ')' :: r2 => some (accRev.reverse, r2)
      | _ => best
    if prev = '\\' then chunkBodyAux rest '"' ('"' :: accRev) best2
    else best2
  | c :: rest, _, accRev, best => chunkBodyAux rest c (c :: accRev) best

/-- Full matches of the global push-call regex, in order. -/
def nextfAux : Nat → List Char → List (List Char)
  | 0, _ => []
  | fuel + 1, cs =>
    match listSplit nextfOpenLit cs with
    | none => []
    | some (_, post) =>
      let wsRun := post.takeWhile isJsWhite
      let afterWs := post.dropWhile isJsWhite
      match afterWs with
      | '"' :: bodyStart =>
        match chunkBodyAux bodyStart (Char.ofNat 0) [] none with
        | some (body, rest) =>
          (nextfOpenLit ++ wsRun ++ '"' :: (body ++ ['"', ']', ')'])) ::
            nextfAux fuel rest
        | none => nextfAux fuel post
      | _ => nextfAux fuel post

/-- All push-call matches with ample fuel. -/
def nextfMatches (cs : List Char) : List (List Char) :=
  nextfAux (cs.length + 1) cs

/-- Group capture recovered from one full push-call match, re-running the
same regex as the source loop does. -/
def nextfGroup (s : List Char) : Option (List Char) :=
  match listSplit nextfOpenLit s with
  | none => none
  | some (_, post) =>
    match post.dropWhile isJsWhite with
    | '"' :: bodyStart =>
      (chunkBodyAux bodyStart (Char.ofNat 0) [] none).map (fun p => p.1)
    | _ => none

/-- Unescape step of the source: escaped quotes, then escaped
backslashes. -/
def unescapeChunk (cs : List Char) : List Char :=
  replace2 '\\' '\\' '\\' (replace2 '\\' '"' '"' cs)

mutual

/-- Recursive search for the song object inside a parsed chunk, following
findSongData of the source: first a node whose clip member carries title
and metadata, then a node directly carrying title, metadata and an
audio-url or id, then a depth-first descent through arrays and object
members in order. -/
def findSongData : Json → Option Json
  | .obj kvs =>
    let j := Json.obj kvs
    if truthy (j.get "clip") && truthy (optGet (j.get "clip") "title") &&
        truthy (optGet (j.get "clip") "metadata") then
      j.get "clip"
    else if truthy (j.get "title") && truthy (j.get "metadata") &&
        (truthy (j.get "audio_url") || truthy (j.get "id")) then
      some j
    else findSongDataKvs kvs
  | .arr xs => findSongDataList xs
  | _ => none

/-- Depth-first search over array items. -/
def findSongDataList : List Json → Option Json
  | [] => none
  | x :: rest =>
    match findSongData x with
    | some r => some r
    | none => findSongDataList rest

/-- Depth-first search over object members in order. -/
def findSongDataKvs : List (String × Json) → Option Json
  | [] => none
  | (_, v) :: rest =>
    match findSongData v with
    | some r => some r
    | none => findSongDataKvs rest

end

/-- One streamed chunk: recover the capture, require it non-empty,
unescape it, require the textual clip and completed-status markers, parse
it and search for the song object. -/
def tryChunk (m : List Char) : Option (Json × Json) :=
  match nextfGroup m with
  | none => none
  | some body =>
    if body = [] then none
    else
      let unescaped := unescapeChunk body
      if containsSub ("\"clip\":").data unescaped &&
          containsSub ("\"status\":\"complete\"").data unescaped then
        match Json.parse (String.mk unescaped) with
        | some jsonData =>
          match findSongData jsonData with
          | some nested => some (nested, jsonData)
          | none => none
        | none => none
      else none

/-- First chunk that yields a song object. -/
def strategy2Aux : List (List Char) → Option (Json × Json)
  | [] => none
  | m :: rest =>
    match tryChunk m with
    | some r => some r
    | none => strategy2Aux rest

/-- Locator strategy 2 over the whole page. -/
def strategy2 (cs : List Char) : Option (Json × Json) :=
  strategy2Aux (nextfMatches cs)

/-- Locator strategy 3: first script whose trimmed body starts with an
opening brace, parses as JSON, and exposes title, display_name or
metadata. -/
def genericScan : List (List Char) → Option Json
  | [] => none
  | script :: rest =>
    match scriptContent script with
    | none => genericScan rest
    | some content =>
      if (trimJs content).headD ' ' = '{' then
        match Json.parse (String.mk content) with
        | some j =>
          if truthy (jsOr (j.get "title")
              (jsOr (j.get "display_name") (j.get "metadata"))) then some j
          else genericScan rest
        | none => genericScan rest
      else genericScan rest

/-! Fallback scans over raw markup (lines 179-271 of the source), one
scanning function per source regex. -/

/-- Quote character test for the two-quote character classes. -/
def quoteOr (c : Char) : Bool := c = '"' || c = squote

/-- Non-quote test. -/
def notQuote (c : Char) : Bool := !quoteOr c

/-- Attribute marker such as property="og:title" with a chosen quote. -/
def mkAttrMarker (attr val : String) (q : Char) : List Char :=
  attr.data ++ '=' :: q :: (val.data ++ [q])

/-- Earliest of the two quote variants of a marker inside the open tag,
required to appear before any closing angle. -/
def markerAfter (afterOpen m1 m2 : List Char) : Option (List Char) :=
  match listSplit m1 afterOpen, listSplit m2 afterOpen with
  | some (p1, r1), some (p2, r2) =>
    if p1.length ≤ p2.length then (if p1.contains '>' then none else some r1)
    else (if p2.contains '>' then none else some r2)
  | some (p1, r1), none => if p1.contains '>' then none else some r1
  | none, some (p2, r2) => if p2.contains '>' then none else some r2
  | none, none => none

/-- Meta-tag content scan: a meta tag whose attributes carry the marker
before any closing angle, then a content attribute whose quoted value is
captured; the tag must still close with an angle afterwards.  On failure
the scan moves to the next meta tag. -/
def metaScanAux (allowEmpty : Bool) (m1 m2 : List Char) :
    Nat → List Char → Option (List Char)
  | 0, _ => none
  | fuel + 1, cs =>
    match listSplit ("<meta").data cs with
    | none => none
    | some (_, afterOpen) =>
      let step : Option (List Char) :=
        match markerAfter afterOpen m1 m2 with
        | none => none
        | some afterMarker =>
          match listSplit ("content=").data afterMarker with
          | none => none
          | some (pre2, afterC) =>
            if pre2.contains '>' then none
            else
              match afterC with
              | q :: rest =>
                if quoteOr q then
                  let cap := rest.takeWhile notQuote
                  let rest2 := rest.dropWhile notQuote
                  if (allowEmpty || cap ≠ []) && rest2 ≠ [] &&
                      (rest2.drop 1).contains '>' then some cap
                  else none
                else none
              | [] => none
      match step with
      | some cap => some cap
      | none => metaScanAux allowEmpty m1 m2 fuel afterOpen

/-- og:title meta content. -/
def ogTitleScan (cs : List Char) : Option (List Char) :=
  metaScanAux false (mkAttrMarker "property" "og:title" '"')
    (mkAttrMarker "property" "og:title" squote) (cs.length + 1) cs

/-- twitter:title meta content. -/
def twitterTitleScan (cs : List Char) : Option (List Char) :=
  metaScanAux false (mkAttrMarker "name" "twitter:title" '"')
    (mkAttrMarker "name" "twitter:title" squote) (cs.length + 1) cs

/-- description meta content, which may be empty. -/
def metaDescContent (cs : List Char) : Option (List Char) :=
  metaScanAux true (mkAttrMarker "name" "description" '"')
    (mkAttrMarker "name" "description" squote) (cs.length + 1) cs

/-- Title-tag capture: text of the first title tag, one or more characters
none of which is an opening angle, immediately followed by the closing
literal. -/
def titleTagAux : Nat → List Char → Option (List Char)
  | 0, _ => none
  | fuel + 1, cs =>
    match listSplit ("<title").data cs with
    | none => none
    | some (_, afterOpen) =>
      match splitAtGt afterOpen with
      | none => none
      | some (_, afterGt) =>
        let cap := afterGt.takeWhile (fun c => c ≠ '<')
        let rest := afterGt.dropWhile (fun c => c ≠ '<')
        if cap ≠ [] && ("</title>").data.isPrefixOf rest then some cap
        else titleTagAux fuel afterOpen

/-- Title fallback of lines 180-188: og:title, then twitter:title, then
the title tag with the site suffix removed and trimmed; the chain ends in
null. -/
def titleFallback (cs : List Char) : Option (List Char) :=
  match ogTitleScan cs with
  | some t => some t
  | none =>
    match twitterTitleScan cs with
    | some t => some t
    | none =>
      match titleTagAux (cs.length + 1) cs with
      | some t =>
        let u := trimJs (replaceFirstLit (" | Suno").data t)
        if u = [] then none else some u
      | none => none

/-- Capture after the last by-plus-whitespace occurrence, as the greedy
prefix of the description regex selects. -/
def lastByCapture : List Char → Option (List Char)
  | [] => none
  | 'b' :: 'y' :: rest =>
    (match lastByCapture rest with
     | some r => some r
     | none =>
       let tailPart := rest.dropWhile isJsWhite
       if rest.takeWhile isJsWhite ≠ [] && tailPart ≠ [] then some tailPart
       else none)
  | _ :: rest => lastByCapture rest

/-- Artist fallback of lines 190-196: the description meta content
matched against a by-name pattern, trimmed. -/
def descArtist (cs : List Char) : Option (List Char) :=
  match metaDescContent cs with
  | none => none
  | some content =>
    match lastByCapture content with
    | some cap => if cap ≠ [] then some (trimJs cap) else none
    | none => none

/-- Quoted-field scan for patterns like a field name, an optional quote,
a colon amid whitespace, and a quoted capture without quotes of either
kind.  Returns the full match and the capture. -/
def quotedFieldAux (field : List Char) : Nat → List Char → Option (List Char × List Char)
  | 0, _ => none
  | fuel + 1, cs =>
    match listSplit field cs with
    | none => none
    | some (_, after) =>
      let step : Option (List Char × List Char) :=
        let q1a : List Char × List Char :=
          match after with
          | c :: r => if quoteOr c then ([c], r) else ([], after)
          | [] => ([], [])
        let ws1 := q1a.2.takeWhile isJsWhite
        let a2 := q1a.2.dropWhile isJsWhite
        match a2 with
        | ':' :: a3 =>
          let ws2 := a3.takeWhile isJsWhite
          let a4 := a3.dropWhile isJsWhite
          match a4 with
          | q :: a5 =>
            if quoteOr q then
              let cap := a5.takeWhile notQuote
              let a6 := a5.dropWhile notQuote
              match a6 with
              | qc :: _ =>
                if cap ≠ [] then
                  some (field ++ q1a.1 ++ ws1 ++ ':' :: (ws2 ++ q :: (cap ++ [qc])), cap)
                else none
              | [] => none
            else none
          | [] => none
        | _ => none
      match step with
      | some r => some r
      | none => quotedFieldAux field fuel after

/-- Body of an escaped JSON string per the greedy group: quotes preceded
by a backslash are crossed, the capture ends at the closing quote. -/
def quoteBodyAux : List Char → Char → List Char → Option (List Char × List Char) →
    Option (List Char × List Char)
  | [], _, _, best => best
  | '"' :: rest, prev, accRev, best =>
    let best2 : Option (List Char × List Char) := some (accRev.reverse, rest)
    if prev = '\\' then quoteBodyAux rest '"' ('"' :: accRev) best2
    else best2
  | c :: rest, _, accRev, best => quoteBodyAux rest c (c :: accRev) best

/-- Global scan for an escaped JSON string field such as a quoted field
name with colon, whitespace, then an escaped string; returns the full
matches in order. -/
def escFieldAux (lit : List Char) : Nat → List Char → List (List Char)
  | 0, _ => []
  | fuel + 1, cs =>
    match listSplit lit cs with
    | none => []
    | some (_, after) =>
      let ws := after.takeWhile isJsWhite
      let a1 := after.dropWhile isJsWhite
      match a1 with
      | '"' :: bodyStart =>
        match quoteBodyAux bodyStart (Char.ofNat 0) [] none with
        | some (body, rest) =>
          (lit ++ ws ++ '"' :: (body ++ ['"'])) :: escFieldAux lit fuel rest
        | none => escFieldAux lit fuel after
      | _ => escFieldAux lit fuel after

/-- Class-marked block: a class attribute whose quoted value holds the
given word, the rest of the tag to its closing angle, then a nonempty text
capture up to the next opening angle. -/
def classBlockAux (word : List Char) : Nat → List Char → Option (List Char × List Char)
  | 0, _ => none
  | fuel + 1, cs =>
    match listSplit ("class=").data cs with
    | none => none
    | some (_, after) =>
      let step : Option (List Char × List Char) :=
        match after with
        | q :: r =>
          if quoteOr q then
            let inner := r.takeWhile notQuote
            let r2 := r.dropWhile notQuote
            if containsSub word inner then
              match r2 with
              | qc :: r3 =>
                match splitAtGt r3 with
                | some (mid, afterGt) =>
                  let cap := afterGt.takeWhile (fun c => c ≠ '<')
                  if cap ≠ [] then
                    some (("class=").data ++ q :: (inner ++ qc :: (mid ++ '>' :: cap)), cap)
                  else none
                | none => none
              | [] => none
            else none
          else none
        | [] => none
      match step with
      | some x => some x
      | none => classBlockAux word fuel after

/-- Data-attribute block: a data- attribute whose name (up to the equals
sign) holds the given word, then a quoted capture. -/
def dataAttrAux (word : List Char) : Nat → List Char → Option (List Char × List Char)
  | 0, _ => none
  | fuel + 1, cs =>
    match listSplit ("data-").data cs with
    | none => none
    | some (_, after) =>
      let step : Option (List Char × List Char) :=
        let run := after.takeWhile (fun c => c ≠ '=')
        let r2 := after.dropWhile (fun c => c ≠ '=')
        if containsSub word run then
          match r2 with
          | '=' :: q :: r3 =>
            if quoteOr q then
              let cap := r3.takeWhile notQuote
              let r4 := r3.dropWhile notQuote
              match r4 with
              | qc :: _ =>
                if cap ≠ [] then
                  some (("data-").data ++ run ++ '=' :: q :: (cap ++ [qc]), cap)
                else none
              | [] => none
            else none
          | _ => none
        else none
      match step with
      | some x => some x
      | none => dataAttrAux word fuel after

/-- Original characters matched by a case-insensitive pattern found at
the given prefix length. -/
def origSpan (cs : List Char) (preLen patLen : Nat) : List Char :=
  (cs.drop preLen).take patLen

/-- Bracketed block with explicit closing marker, case-insensitive: an
opening bracket and word, a run without closing brackets, the closing
bracket, then the lazy body up to the closing-marker literal. -/
def verseBlockAux (word : List Char) : Nat → List Char → List (List Char)
  | 0, _ => []
  | fuel + 1, cs =>
    match listSplitCi ('[' :: word) cs with
    | none => []
    | some (pre, after) =>
      let openOrig := origSpan cs pre.length (1 + word.length)
      let run := after.takeWhile (fun c => c ≠ ']')
      let r2 := after.dropWhile (fun c => c ≠ ']')
      match r2 with
      | ']' :: r3 =>
        match listSplitCi ('[' :: '/' :: (word ++ [']'])) r3 with
        | some (mid, afterClose) =>
          let closeOrig := origSpan r3 mid.length (3 + word.length)
          (openOrig ++ run ++ ']' :: (mid ++ closeOrig)) ::
            verseBlockAux word fuel afterClose
        | none => []
      | _ => []

/-- Earliest case-insensitive occurrence among several literals,
returning prefix length and literal length. -/
def earliestCiIdx (pats : List (List Char)) (cs : List Char) : Option (Nat × Nat) :=
  pats.foldl (fun acc pat =>
    match listSplitCi pat cs with
    | some (pre, _) =>
      match acc with
      | some best => if pre.length < best.1 then some (pre.length, pat.length) else acc
      | none => some (pre.length, pat.length)
    | none => acc) none

/-- Earliest case-sensitive occurrence among several literals. -/
def earliestCsIdx (pats : List (List Char)) (cs : List Char) : Option (Nat × Nat) :=
  pats.foldl (fun acc pat =>
    match listSplit pat cs with
    | some (pre, _) =>
      match acc with
      | some best => if pre.length < best.1 then some (pre.length, pat.length) else acc
      | none => some (pre.length, pat.length)
    | none => acc) none

/-- Exact bracketed section markers, lowercase for the case-insensitive
scans. -/
def sectionMarkersCi : List (List Char) :=
  [("[verse]").data, ("[chorus]").data, ("[bridge]").data, ("[outro]").data, ("[intro]").data]

/-- Section block running to the next opening bracket or the end. -/
def sectionBlockAux : Nat → List Char → List (List Char)
  | 0, _ => []
  | fuel + 1, cs =>
    match earliestCiIdx sectionMarkersCi cs with
    | none => []
    | some (preLen, patLen) =>
      let marker := origSpan cs preLen patLen
      let rest0 := cs.drop (preLen + patLen)
      let content := rest0.takeWhile (fun c => c ≠ '[')
      (marker ++ content) :: sectionBlockAux fuel (rest0.drop content.length)

/-- Marker words, capitalized for the case-sensitive scans. -/
def markerWordsCs : List (List Char) :=
  [("Verse").data, ("Chorus").data, ("Bridge").data, ("Intro").data, ("Outro").data]

/-- Does the region hold an opening bracket, a marker word, and a closing
bracket somewhere after it, as the quoted-block pattern requires. -/
def quotedMarkerOk (region : List Char) : Bool :=
  markerWordsCs.any (fun w =>
    match listSplit ('[' :: w) region with
    | some (_, after) => after.contains ']'
    | none => false)

/-- Quoted block whose quote-free body holds a bracketed marker section;
on failure the closing quote is retried as the next opening quote. -/
def quotedBlockAux : Nat → List Char → Option (List Char × List Char)
  | 0, _ => none
  | fuel + 1, cs =>
    match listSplit ['"'] cs with
    | none => none
    | some (_, afterQ) =>
      let region := afterQ.takeWhile (fun c => c ≠ '"')
      let r2 := afterQ.dropWhile (fun c => c ≠ '"')
      match r2 with
      | '"' :: _ =>
        if quotedMarkerOk region then some ('"' :: (region ++ ['"']), region)
        else quotedBlockAux fuel r2
      | _ => none

/-- Attempt of the line-start block at one line start: a capital letter,
a dot-free newline-free stretch to a bracketed marker, the rest of that
bracket, then the body up to a blank line or the end.  Returns the group
and whether a blank line closed it. -/
def lineBlockTry (cs : List Char) : Option (List Char × Bool) :=
  match cs with
  | c :: rest =>
    if ('A').toNat ≤ c.toNat && c.toNat ≤ ('Z').toNat then
      match earliestCsIdx (markerWordsCs.map (fun w => '[' :: w)) rest with
      | some (preLen, patLen) =>
        let pre := rest.take preLen
        if pre.contains '.' || pre.contains '\n' then none
        else
          let afterW := rest.drop (preLen + patLen)
          let run := afterW.takeWhile (fun d => d ≠ ']')
          match afterW.dropWhile (fun d => d ≠ ']') with
          | ']' :: r3 =>
            match listSplit ['\n', '\n'] r3 with
            | some (body, _) =>
              some (c :: (pre ++ (rest.drop preLen).take patLen ++ run ++ ']' :: body), true)
            | none => some (c :: (pre ++ (rest.drop preLen).take patLen ++ run ++ ']' :: r3), false)
          | _ => none
      | none => none
    else none
  | [] => none

/-- Line-start block scan over the string start and every position after
a newline; candidates are the full match (with its leading newline and
closing blank line) and the group. -/
def lineBlockAux : Nat → List Char → Bool → List (List Char)
  | 0, _, _ => []
  | fuel + 1, cs, atStart =>
    let here : List (List Char) :=
      if atStart then
        match lineBlockTry cs with
        | some (grp, closed) =>
          [grp ++ (if closed then ['\n', '\n'] else []), grp]
        | none => []
      else []
    match here with
    | [] =>
      (match listSplit ['\n'] cs with
       | some (_, after) =>
         (match lineBlockTry after with
          | some (grp, closed) =>
            ['\n' :: (grp ++ (if closed then ['\n', '\n'] else [])), grp]
          | none => lineBlockAux fuel after true)
       | none => [])
    | found => found

/-- Candidates of the line-start pattern. -/
def lineBlockCands (cs : List Char) : List (List Char) :=
  lineBlockAux (cs.length + 1) cs true

/-- Escaped-unicode block: a backslash-u escape, a newline-free lazy gap
to a case-insensitive bracketed marker word, then the rest of that
bracket; the trailing lazy class matches nothing. -/
def uBlockAux : Nat → List Char → List (List Char)
  | 0, _ => []
  | fuel + 1, cs =>
    match listSplit ['\\', 'u'] cs with
    | none => []
    | some (_, after) =>
      match after with
      | h1 :: h2 :: h3 :: h4 :: rest =>
        if (hexVal h1).isSome && (hexVal h2).isSome && (hexVal h3).isSome &&
            (hexVal h4).isSome then
          match earliestCiIdx (markerWordsCs.map (fun w => '[' :: w.map Char.toLower)) rest with
          | some (gapLen, patLen) =>
            let gap := rest.take gapLen
            if gap.contains '\n' then uBlockAux fuel after
            else
              let afterW := rest.drop (gapLen + patLen)
              let run := afterW.takeWhile (fun d => d ≠ ']')
              match afterW.dropWhile (fun d => d ≠ ']') with
              | ']' :: r3 =>
                ('\\' :: 'u' :: h1 :: h2 :: h3 :: h4 ::
                    (gap ++ (rest.drop gapLen).take patLen ++ run ++ [']'])) ::
                  uBlockAux fuel r3
              | _ => uBlockAux fuel after
          | none => uBlockAux fuel after
        else uBlockAux fuel after
      | _ => uBlockAux fuel after

/-- Quoted string holding an exact bracketed marker, case-insensitive,
global. -/
def quotedMarkerCiAux : Nat → List Char → List (List Char)
  | 0, _ => []
  | fuel + 1, cs =>
    match listSplit ['"'] cs with
    | none => []
    | some (_, afterQ) =>
      let region := afterQ.takeWhile (fun c => c ≠ '"')
      let r2 := afterQ.dropWhile (fun c => c ≠ '"')
      match r2 with
      | '"' :: r3 =>
        if sectionMarkersCi.any (fun w => containsSubCi w region) then
          ('"' :: (region ++ ['"'])) :: quotedMarkerCiAux fuel r3
        else quotedMarkerCiAux fuel r2
      | _ => []

/-- Acceptance test of the lyrics loop: length over twenty and a verse or
chorus marker, a literal backslash-n, or at least two newlines. -/
def lyricOk (cand : List Char) : Bool :=
  cand.length > 20 &&
    (containsSub ("[Verse").data cand || containsSub ("[Chorus").data cand ||
     containsSub ['\\', 'n'] cand || cand.count '\n' ≥ 2)

/-- Unescape and trim applied to an accepted lyrics candidate. -/
def unescLyric (cs : List Char) : List Char :=
  trimJs (replaceU (replace2 '\\' '"' '"' (replace2 '\\' 'n' '\n' cs)))

/-- Candidate pair of a non-global match: the full match, then the
capture, in the order the source loop visits them. -/
def optPair (o : Option (List Char × List Char)) : List (List Char) :=
  match o with
  | some (f, g) => [f, g]
  | none => []

/-- Candidate lists of the thirteen lyric patterns, in source order. -/
def lyricCandidates (cs : List Char) : List (List (List Char)) :=
  [ optPair (quotedFieldAux ("prompt").data (cs.length + 1) cs)
  , optPair (quotedFieldAux ("lyrics").data (cs.length + 1) cs)
  , escFieldAux ("\"gpt_description_prompt\":").data (cs.length + 1) cs
  , optPair (classBlockAux ("lyrics").data (cs.length + 1) cs)
  , optPair (dataAttrAux ("lyrics").data (cs.length + 1) cs)
  , escFieldAux ("\"prompt\":").data (cs.length + 1) cs
  , verseBlockAux ("verse").data (cs.length + 1) cs
  , verseBlockAux ("chorus").data (cs.length + 1) cs
  , sectionBlockAux (cs.length + 1) cs
  , optPair (quotedBlockAux (cs.length + 1) cs)
  , lineBlockCands cs
  , uBlockAux (cs.length + 1) cs
  , quotedMarkerCiAux (cs.length + 1) cs ]

/-- First candidate of a pattern passing the acceptance test. -/
def firstOkCand : List (List Char) → Option (List Char)
  | [] => none
  | c :: rest => if lyricOk c then some c else firstOkCand rest

/-- Pattern chain: first pattern with an accepted candidate wins. -/
def lyricChain : List (List (List Char)) → Option (List Char)
  | [] => none
  | grp :: rest =>
    match firstOkCand grp with
    | some t => some (unescLyric t)
    | none => lyricChain rest

/-- Lyrics fallback scan of lines 198-231. -/
def lyricScan (cs : List Char) : Option (List Char) :=
  lyricChain (lyricCandidates cs)

/-- Genre vocabulary in source alternation order. -/
def genreWords : List (List Char) :=
  [("experimental").data, ("ballad").data, ("ambient").data, ("rock").data,
   ("pop").data, ("jazz").data, ("classical").data, ("electronic").data,
   ("hip-hop").data, ("country").data, ("folk").data, ("blues").data,
   ("r&b").data, ("reggae").data, ("metal").data, ("punk").data,
   ("indie").data, ("alternative").data, ("dance").data, ("house").data,
   ("techno").data, ("dubstep").data, ("trap").data, ("lo-fi").data,
   ("chillout").data, ("acoustic").data]

/-- Case-insensitive genre word at the given position, first alternative
in order. -/
def matchGenreAt : List (List Char) → List Char → Option Nat
  | [], _ => none
  | w :: ws, cs => if isPrefixCi w cs then some w.length else matchGenreAt ws cs

/-- Genre combination at one position: genre, comma-or-space run, genre,
comma-or-space run, optional third genre; returns the consumed length. -/
def genreComboAt (cs : List Char) : Option Nat :=
  match matchGenreAt genreWords cs with
  | none => none
  | some l1 =>
    let r1 := cs.drop l1
    let s1 := (r1.takeWhile (fun c => c = ',' || isJsWhite c)).length
    let r2 := r1.drop s1
    match matchGenreAt genreWords r2 with
    | none => none
    | some l2 =>
      let r3 := r2.drop l2
      let s2 := (r3.takeWhile (fun c => c = ',' || isJsWhite c)).length
      let r4 := r3.drop s2
      match matchGenreAt genreWords r4 with
      | some l3 => some (l1 + s1 + l2 + s2 + l3)
      | none => some (l1 + s1 + l2 + s2)

/-- First genre combination over the page. -/
def genreComboScan : Nat → List Char → Option (List Char)
  | 0, _ => none
  | fuel + 1, cs =>
    match cs with
    | [] => none
    | _ :: rest =>
      match genreComboAt cs with
      | some n => some (cs.take n)
      | none => genreComboScan fuel rest

/-- First single genre word inside a text. -/
def genreSingleScan : Nat → List Char → Option (List Char)
  | 0, _ => none
  | fuel + 1, cs =>
    match cs with
    | [] => none
    | _ :: rest =>
      match matchGenreAt genreWords cs with
      | some l => some (cs.take l)
      | none => genreSingleScan fuel rest

/-- Candidate lists of the nine style patterns, in source order. -/
def styleCandidates (cs : List Char) : List (List (List Char)) :=
  [ optPair (quotedFieldAux ("tags").data (cs.length + 1) cs)
  , optPair (quotedFieldAux ("style").data (cs.length + 1) cs)
  , optPair (quotedFieldAux ("genre").data (cs.length + 1) cs)
  , optPair (classBlockAux ("style").data (cs.length + 1) cs)
  , optPair (classBlockAux ("tag").data (cs.length + 1) cs)
  , escFieldAux ("\"tags\":").data (cs.length + 1) cs
  , escFieldAux ("\"style\":").data (cs.length + 1) cs
  , escFieldAux ("\"genre\":").data (cs.length + 1) cs
  , (match genreComboScan (cs.length + 1) cs with
     | some f => [f]
     | none => []) ]

/-- First style candidate longer than two characters. -/
def firstStyleCand : List (List Char) → Option (List Char)
  | [] => none
  | c :: rest => if c.length > 2 then some c else firstStyleCand rest

/-- Style pattern chain with the unescape-and-trim step of line 253. -/
def styleChain : List (List (List Char)) → Option (List Char)
  | [] => none
  | grp :: rest =>
    match firstStyleCand grp with
    | some t => some (trimJs (replace2 '\\' '"' '"' t))
    | none => styleChain rest

/-- Styles fallback scan of lines 233-271, ending with the single genre
word inside the description meta content. -/
def stylesScan (cs : List Char) : Option (List Char) :=
  match styleChain (styleCandidates cs) with
  | some t => some t
  | none =>
    match metaDescContent cs with
    | none => none
    | some content => genreSingleScan (content.length + 1) content

/-! JSON.stringify, used for the truncated debug copy of the winning
candidate. -/

/-- Hex digit character. -/
def hexDigit (n : Nat) : Char :=
  if n < 10 then Char.ofNat (('0').toNat + n) else Char.ofNat (('a').toNat + n - 10)

/-- Four-digit hex rendering. -/
def hex4 (n : Nat) : List Char :=
  [hexDigit (n / 4096 % 16), hexDigit (n / 256 % 16), hexDigit (n / 16 % 16),
   hexDigit (n % 16)]

/-- Escaping of one character inside a JSON string literal. -/
def jstringifyChar (c : Char) : List Char :=
  if c = '"' then ['\\', '"']
  else if c = '\\' then ['\\', '\\']
  else if c = '\n' then ['\\', 'n']
  else if c = '\r' then ['\\', 'r']
  else if c = '\t' then ['\\', 't']
  else if c = Char.ofNat 8 then ['\\', 'b']
  else if c = Char.ofNat 12 then ['\\', 'f']
  else if c.toNat < 32 then '\\' :: 'u' :: hex4 c.toNat
  else [c]

/-- JSON string literal rendering. -/
def jstringifyStr (s : String) : String :=
  String.mk ('"' :: ((s.data.map jstringifyChar).join ++ ['"']))

mutual

/-- JSON.stringify on a parsed value. -/
def jstringify : Json → String
  | .null => "null"
  | .bool true => "true"
  | .bool false => "false"
  | .num raw => raw
  | .str s => jstringifyStr s
  | .arr xs => "[" ++ jstringifyList xs ++ "]"
  | .obj kvs => "\x7b" ++ jstringifyKvs kvs ++ "\x7d"

/-- Comma-joined array items. -/
def jstringifyList : List Json → String
  | [] => ""
  | [x] => jstringify x
  | x :: rest => jstringify x ++ "," ++ jstringifyList rest

/-- Comma-joined object members. -/
def jstringifyKvs : List (String × Json) → String
  | [] => ""
  | [(k, v)] => jstringifyStr k ++ ":" ++ jstringify v
  | (k, v) :: rest => jstringifyStr k ++ ":" ++ jstringify v ++ "," ++ jstringifyKvs rest

end

/-! Field resolution of the parse route (lines 126-311). -/

/-- Errors thrown inside the extraction and caught by the catch-all:
a type error from cleaning a truthy non-string, or a syntax error from
building the dynamic prompt-reference pattern. -/
inductive ParseErr where
  | typeError
  | badRegex

/-- Locator strategy 1: parse of the legacy capture. -/
def strategy1 (cs : List Char) : Option Json :=
  (nextDataCapture cs).bind (fun b => Json.parse (String.mk b))

/-- Chained optional access to props and pageProps. -/
def pagePropsOf (nd : Option Json) : Option Json :=
  optGet (optGet nd "props") "pageProps"

/-- Song object of the legacy payload: song, else data, else the whole
pageProps value. -/
def songFromNext (nd : Json) : Option Json :=
  let pp := pagePropsOf (some nd)
  jsOr (optGet pp "song") (jsOr (optGet pp "data") pp)

/-- The three locator strategies of the parse route in order; the
streamed-chunk strategy runs only when the legacy candidate is falsy,
while the generic script scan runs unconditionally and replaces the
candidate whenever it accepts a script. -/
def locate (cs : List Char) : Option Json × Option Json :=
  let nd := strategy1 cs
  let sd1 : Option Json :=
    match nd with
    | some j => songFromNext j
    | none => none
  let sd2 : Option Json :=
    if truthy sd1 then sd1
    else
      match strategy2 cs with
      | some p => some p.1
      | none => sd1
  let sd3 : Option Json :=
    match genericScan (allScriptMatches cs) with
    | some j => some j
    | none => sd2
  (sd3, nd)

/-- Prompt of the candidate metadata. -/
def metadataPrompt (sd : Option Json) : Option Json :=
  optGet (optGet sd "metadata") "prompt"

/-- Line 126. -/
def title0 (sd : Option Json) : Option Json :=
  jsOr (optGet sd "title") none

/-- Line 127. -/
def artist0 (sd : Option Json) : Option Json :=
  jsOr (optGet sd "display_name") (jsOr (optGet (optGet sd "user") "display_name") none)

/-- Line 128. -/
def lyrics0 (sd : Option Json) : Option Json :=
  jsOr (metadataPrompt sd) (jsOr (optGet sd "gpt_description_prompt") none)

/-- Line 129. -/
def styles0 (sd : Option Json) : Option Json :=
  jsOr (optGet sd "display_tags") (jsOr (optGet (optGet sd "metadata") "tags") none)

/-- Lines 131-136: negative-tags synthesis when styles is falsy. -/
def styles1 (sd : Option Json) : Option Json :=
  if !truthy (styles0 sd) && truthy (optGet (optGet sd "metadata") "negative_tags") then
    some (Json.str ("NOT: " ++
      jsTemplate ((optGet (optGet sd "metadata") "negative_tags").getD Json.null)))
  else styles0 sd

/-- Lines 139-145: enhanced lyrics from the legacy payload. -/
def enhancedLyrics (nd lyr : Option Json) : Option Json :=
  let pp := pagePropsOf nd
  if truthy pp then
    let song := optGet pp "song"
    if truthy song then
      jsOr lyr (jsOr (optGet (optGet song "metadata") "prompt")
        (optGet song "gpt_description_prompt"))
    else lyr
  else lyr

/-- Lines 139-145: enhanced styles from the legacy payload. -/
def enhancedStyles (nd sty : Option Json) : Option Json :=
  let pp := pagePropsOf nd
  if truthy pp then
    let song := optGet pp "song"
    if truthy song then jsOr sty (optGet (optGet song "metadata") "tags")
    else sty
  else sty

/-- Model of RegExp construction over the interpolated reference id: the
construction succeeds when the id is purely alphanumeric; other
characters may produce invalid pattern syntax and throw. -/
def regexIdOk (s : String) : Bool :=
  s.data.all (fun c => c.isAlpha || c.isDigit)

/-- All matches of the dynamic prompt-reference pattern: a quote, the id,
a colon-T marker, lowercase hex digits, a comma, then the lazy capture up
to a quote-bracket pair or the end.  Returns match indices and captures. -/
def promptRefScan : Nat → List Char → Nat → List Char → List (Nat × List Char)
  | 0, _, _, _ => []
  | fuel + 1, suffix, offset, idc =>
    match listSplit ('"' :: (idc ++ [':', 'T'])) suffix with
    | none => []
    | some (pre, after) =>
      let mIdx := offset + pre.length
      let hexes := after.takeWhile (fun c =>
        c.isDigit || (('a').toNat ≤ c.toNat && c.toNat ≤ ('f').toNat))
      let after2 := after.drop hexes.length
      let consumedToAfter := pre.length + 1 + idc.length + 2
      match after2 with
      | ',' :: rest =>
        if hexes = [] then promptRefScan fuel after (offset + consumedToAfter) idc
        else
          let cap :=
            match listSplit ['"', ']'] rest with
            | some (c0, _) => c0
            | none => rest
          (mIdx, cap) ::
            promptRefScan fuel (rest.drop cap.length)
              (offset + consumedToAfter + hexes.length + 1 + cap.length) idc
      | _ => promptRefScan fuel after (offset + consumedToAfter) idc

/-- Index of the first occurrence of a literal at or after a position. -/
def indexOfSubFrom (pat cs : List Char) (start : Nat) : Option Nat :=
  (listSplit pat (cs.drop start)).map (fun p => start + p.1.length)

/-- Index of the last occurrence of a literal starting at or before a
position. -/
def lastIndexOfLe (pat cs : List Char) (bound : Nat) : Option Nat :=
  ((List.range (bound + 1)).filter (fun i => pat.isPrefixOf (cs.drop i))).getLast?

/-- Loop of lines 158-175: for each match take its surrounding push
chunk, skip chunks holding a clip marker, and accept a capture longer
than twenty characters. -/
def resolveLoopPR (cs : List Char) (lyr : Option Json) :
    List (Nat × List Char) → Option Json
  | [] => lyr
  | (idx, cap) :: rest =>
    let mStart := (lastIndexOfLe ("self.__next_f.push").data cs idx).getD 0
    let mEnd :=
      match indexOfSubFrom [']', ')'] cs idx with
      | some i => i + 2
      | none => 1
    let fullChunk := (cs.take mEnd).drop mStart
    if cap ≠ [] && !containsSub ("\"clip\"").data fullChunk && cap.length > 20 then
      some (Json.str (String.mk (unescLyric cap)))
    else resolveLoopPR cs lyr rest

/-- Lines 148-177: prompt-reference resolution, guarded by the lyrics
value being falsy while the candidate prompt is truthy, the prompt being
a string, and the string starting with a dollar sign; building the
dynamic pattern can throw. -/
def lyricsInd (cs : List Char) (sd lyr : Option Json) : Except ParseErr (Option Json) :=
  if !truthy lyr && truthy (metadataPrompt sd) then
    match metadataPrompt sd with
    | some (Json.str s) =>
      if s.startsWith "$" then
        let promptId := s.drop 1
        if regexIdOk promptId then
          Except.ok (resolveLoopPR cs lyr
            (promptRefScan (cs.length + 1) cs 0 promptId.data))
        else Except.error ParseErr.badRegex
      else Except.ok lyr
    | _ => Except.ok lyr
  else Except.ok lyr

/-- Lines 180-188: the title is reassigned from the meta fallbacks, with
null at the end of the chain. -/
def titleResolve (cs : List Char) (t0 : Option Json) : Option Json :=
  if truthy t0 then t0
  else
    match titleFallback cs with
    | some t => some (Json.str (String.mk t))
    | none => none

/-- Lines 190-196: the artist is only assigned when the description scan
succeeds. -/
def artistResolve (cs : List Char) (a0 : Option Json) : Option Json :=
  if truthy a0 then a0
  else
    match descArtist cs with
    | some t => some (Json.str (String.mk t))
    | none => a0

/-- Lines 198-231. -/
def lyricsResolve (cs : List Char) (l : Option Json) : Option Json :=
  if truthy l then l
  else
    match lyricScan cs with
    | some t => some (Json.str (String.mk t))
    | none => l

/-- Lines 233-271. -/
def stylesResolve (cs : List Char) (s : Option Json) : Option Json :=
  if truthy s then s
  else
    match stylesScan cs with
    | some t => some (Json.str (String.mk t))
    | none => s

/-- Resolved values just before cleaning and assembly. -/
structure Resolved where
  title : Option Json
  artist : Option Json
  lyrics : Option Json
  styles : Option Json
  audio_url : Option Json
  sd : Option Json
  hasNextData : Bool
  scriptCount : Nat

/-- Whole resolution phase of the parse route: locate the candidate,
resolve the four fields through their waterfalls, and read the audio
url. -/
def resolveAll (cs : List Char) : Except ParseErr Resolved :=
  let loc := locate cs
  let sd := loc.1
  let nd := loc.2
  let l1 := enhancedLyrics nd (lyrics0 sd)
  let s2 := enhancedStyles nd (styles1 sd)
  match lyricsInd cs sd l1 with
  | .error e => .error e
  | .ok l2 =>
    .ok { title := titleResolve cs (title0 sd),
          artist := artistResolve cs (artist0 sd),
          lyrics := lyricsResolve cs l2,
          styles := stylesResolve cs s2,
          audio_url := jsOr (optGet sd "audio_url") none,
          sd := sd,
          hasNextData := (nextDataCapture cs).isSome,
          scriptCount := (allScriptMatches cs).length }

/-- The clean helper applied to a resolved value: null and undefined pass
through as null, strings are cleaned, and any truthy non-string throws a
type error when its replace member is called. -/
def cleanJs (v : Option Json) : Except ParseErr (Option String) :=
  match v with
  | none => Except.ok none
  | some Json.null => Except.ok none
  | some (Json.str s) => Except.ok (cleanO (some s))
  | some _ => Except.error ParseErr.typeError

/-- Diagnostics block of the response. -/
structure DebugInfo where
  hasNextData : Bool
  scriptCount : Nat
  htmlLength : Nat
  titleFound : Bool
  artistFound : Bool
  lyricsFound : Bool
  stylesFound : Bool
  audioFound : Bool

/-- Response record of the parse route. -/
structure ParseRecord where
  url : String
  title : Option String
  artist : Option String
  lyrics : Option String
  styles : Option String
  audio_url : Option Json
  transcription_note : Option String
  rawHtmlSnippet : String
  songData : Option String
  debugInfo : DebugInfo

/-- Transcription hint of the response. -/
def transcriptionNoteText : String :=
  "For accurate lyrics, consider using an LLM with audio transcription capabilities on the audio_url"

/-- Parse route handler after a successful fetch: resolve, clean the four
text fields in response order, and assemble the record; a thrown error is
surfaced through Except as the catch-all failure.  The clock parameter is
unused by this route. -/
def parseHandler (_now url html : String) : Except ParseErr ParseRecord :=
  match resolveAll html.data with
  | .error e => .error e
  | .ok st =>
    match cleanJs st.title with
    | .error e => .error e
    | .ok t =>
      match cleanJs st.artist with
      | .error e => .error e
      | .ok a =>
        match cleanJs st.lyrics with
        | .error e => .error e
        | .ok l =>
          match cleanJs st.styles with
          | .error e => .error e
          | .ok s =>
            .ok { url := url,
                  title := t,
                  artist := a,
                  lyrics := l,
                  styles := s,
                  audio_url := st.audio_url,
                  transcription_note :=
                    if truthy st.audio_url then some transcriptionNoteText else none,
                  rawHtmlSnippet := String.mk (html.data.take 2000),
                  songData :=
                    if truthy st.sd then
                      some (String.mk ((jstringify (st.sd.getD Json.null)).data.take 500))
                    else none,
                  debugInfo :=
                    { hasNextData := st.hasNextData,
                      scriptCount := st.scriptCount,
                      htmlLength := html.length,
                      titleFound := truthy st.title,
                      artistFound := truthy st.artist,
                      lyricsFound := truthy st.lyrics,
                      stylesFound := truthy st.styles,
                      audioFound := truthy st.audio_url } }

/-! Extract route (lines 318-469). -/

/-- Core song information section. -/
structure XSongInfo where
  id : Option Json
  title : Option Json
  display_name : Option Json
  created_at : Option Json
  status : Option Json
  model_name : Option Json
  gpt_description_prompt : Option Json

/-- User section. -/
structure XUserInfo where
  id : Option Json
  display_name : Option Json
  handle : Option Json
  avatar_image_url : Option Json
  is_verified : Option Json

/-- Media urls. -/
structure XMedia where
  audio_url : Option Json
  video_url : Option Json
  image_url : Option Json
  image_large_url : Option Json

/-- Metadata section. -/
structure XMetadata where
  prompt : Option Json
  gpt_description_prompt : Option Json
  audio_prompt_id : Option Json
  history : Option Json
  concat_history : Option Json
  type : Option Json
  duration : Option Json
  refund_credits : Option Json
  stream : Option Json
  error_type : Option Json
  error_message : Option Json
  tags : Option Json

/-- Engagement metrics. -/
structure XEngagement where
  play_count : Option Json
  upvote_count : Option Json
  is_liked : Option Json
  reaction : Option Json

/-- Technical details. -/
structure XTechnical where
  duration : Option Json
  is_trashed : Option Json
  is_public : Option Json
  stem_from_id : Option Json
  infill_start_s : Option Json
  infill_end_s : Option Json

/-- Raw framework payload echo. -/
structure XRawNextData where
  props : Option Json
  page : Option Json
  query : Option Json
  buildId : Option Json
  isFallback : Option Json
  gssp : Option Json

/-- Organized response of the extract route. -/
structure ExtractData where
  url : String
  extraction_timestamp : String
  song_info : XSongInfo
  user_info : XUserInfo
  media : XMedia
  metadata : XMetadata
  engagement : XEngagement
  technical : XTechnical
  raw_next_data : XRawNextData
  full_song_data : Option Json

/-- Result of the extract route after a successful fetch: a distinct
not-found response, or the organized record. -/
inductive ExtractResult where
  | notFound
  | found (d : ExtractData)

/-- Extract route handler after a successful fetch, translated from lines
337-464: legacy parse, generic script scan guarded by the candidate being
falsy, the not-found branch when both candidate and legacy payload are
falsy, then assembly of the organized record with the current time. -/
def extractHandler (now url html : String) : ExtractResult :=
  let cs := html.data
  let nd : Option Json := strategy1 cs
  let sd1 : Option Json :=
    match nd with
    | some j =>
      let pp := pagePropsOf (some j)
      jsOr (optGet pp "song") (optGet pp "data")
    | none => none
  let sd : Option Json :=
    if truthy sd1 then sd1
    else
      match genericScan (allScriptMatches cs) with
      | some j => some j
      | none => sd1
  if !truthy sd && !truthy nd then ExtractResult.notFound
  else
    let pp := pagePropsOf nd
    let song := jsOr (optGet pp "song") (optGet pp "data")
    ExtractResult.found
      { url := url,
        extraction_timestamp := now,
        song_info :=
          { id := optGet song "id",
            title := optGet song "title",
            display_name := optGet song "display_name",
            created_at := optGet song "created_at",
            status := optGet song "status",
            model_name := optGet song "model_name",
            gpt_description_prompt := optGet song "gpt_description_prompt" },
        user_info :=
          { id := optGet (optGet song "user") "id",
            display_name := optGet (optGet song "user") "display_name",
            handle := optGet (optGet song "user") "handle",
            avatar_image_url := optGet (optGet song "user") "avatar_image_url",
            is_verified := optGet (optGet song "user") "is_verified" },
        media :=
          { audio_url := optGet song "audio_url",
            video_url := optGet song "video_url",
            image_url := optGet song "image_url",
            image_large_url := optGet song "image_large_url" },
        metadata :=
          { prompt := optGet (optGet song "metadata") "prompt",
            gpt_description_prompt := optGet (optGet song "metadata") "gpt_description_prompt",
            audio_prompt_id := optGet (optGet song "metadata") "audio_prompt_id",
            history := optGet (optGet song "metadata") "history",
            concat_history := optGet (optGet song "metadata") "concat_history",
            type := optGet (optGet song "metadata") "type",
            duration := optGet (optGet song "metadata") "duration",
            refund_credits := optGet (optGet song "metadata") "refund_credits",
            stream := optGet (optGet song "metadata") "stream",
            error_type := optGet (optGet song "metadata") "error_type",
            error_message := optGet (optGet song "metadata") "error_message",
            tags := optGet (optGet song "metadata") "tags" },
        engagement :=
          { play_count := optGet song "play_count",
            upvote_count := optGet song "upvote_count",
            is_liked := optGet song "is_liked",
            reaction := optGet song "reaction" },
        technical :=
          { duration := optGet song "duration",
            is_trashed := optGet song "is_trashed",
            is_public := optGet song "is_public",
            stem_from_id := optGet song "stem_from_id",
            infill_start_s := optGet song "infill_start_s",
            infill_end_s := optGet song "infill_end_s" },
        raw_next_data :=
          { props := optGet nd "props",
            page := optGet nd "page",
            query := optGet nd "query",
            buildId := optGet nd "buildId",
            isFallback := optGet nd "isFallback",
            gssp := optGet nd "gssp" },
        full_song_data := song }

/-! Predicates and helper observations used by the verification
theorems. -/

/-- Absence of any tag-regex match: every opening angle is either
followed at once by a closing angle or sees no closing angle later. -/
def noTag : List Char → Bool
  | [] => true
  | c :: rest =>
    if c = '<' then
      match rest with
      | '>' :: _ => noTag rest
      | _ => !rest.contains '>'
    else noTag rest

/-- Every whitespace character is an ordinary space. -/
def spacedOk (cs : List Char) : Bool :=
  cs.all (fun c => !isJsWhite c || c = ' ')

/-- Adjacency relation forbidding two consecutive whitespace
characters. -/
def noAdjR (a b : Char) : Prop :=
  ¬(isJsWhite a = true ∧ isJsWhite b = true)

/-- Values safe to clean: null, undefined, or a string. -/
def strOrNull : Option Json → Bool
  | none => true
  | some Json.null => true
  | some (Json.str _) => true
  | some _ => false

/-- Do all four resolved text fields carry cleanable values. -/
def fieldsStrOrNull (cs : List Char) : Bool :=
  match resolveAll cs with
  | .ok st =>
    strOrNull st.title && strOrNull st.artist && strOrNull st.lyrics &&
      strOrNull st.styles
  | .error _ => true

/-- Did the parse route succeed. -/
def isOkB : Except ParseErr ParseRecord → Bool
  | .ok _ => true
  | .error _ => false

/-- Is the extract response the distinct not-found result. -/
def isNotFoundB : ExtractResult → Bool
  | .notFound => true
  | .found _ => false

/-- Does some script tag of the page carry a parsable payload for the
generic scan: a body starting (after trimming) with an opening brace that
JSON.parse accepts. -/
def anyScriptParses : List (List Char) → Bool
  | [] => false
  | s :: rest =>
    match scriptContent s with
    | some content =>
      if (trimJs content).headD ' ' = '{' && (Json.parse (String.mk content)).isSome then
        true
      else anyScriptParses rest
    | none => anyScriptParses rest

/-- At least one structured payload of the page parses: the legacy
payload, or some generic script body. -/
def anyParsablePayload (cs : List Char) : Bool :=
  (strategy1 cs).isSome || anyScriptParses (allScriptMatches cs)

/-- All whitespace in a cleaned value is the ordinary space. -/
def allWsSpaces : Option String → Bool
  | none => true
  | some y => spacedOk y.data

/-! Concrete pages used to settle the claims. -/

/-- Page whose only embedded data is the legacy payload of scenario A. -/
def htmlLegacyA : String :=
  "<html><script id=\"__NEXT_DATA__\" type=\"application/json\">\x7b\"props\":\x7b\"pageProps\":\x7b\"song\":\x7b\"title\":\"T\",\"display_name\":\"A\",\"metadata\":\x7b\"prompt\":\"P\",\"tags\":\"pop\"\x7d\x7d\x7d\x7d\x7d</script></html>"

/-- Page carrying the legacy payload with title T and a later generic
script with conflicting title X. -/
def htmlConflict : String :=
  "<script id=\"__NEXT_DATA__\" type=\"application/json\">\x7b\"props\":\x7b\"pageProps\":\x7b\"song\":\x7b\"title\":\"T\",\"display_name\":\"A\",\"metadata\":\x7b\"prompt\":\"P\",\"tags\":\"pop\"\x7d\x7d\x7d\x7d\x7d</script><script>\x7b\"title\":\"X\",\"display_name\":\"B\",\"metadata\":\x7b\"prompt\":\"Q\",\"tags\":\"rock\"\x7d\x7d</script>"

/-- Page whose candidate prompt is the indirection marker with id 18 and
whose streamed chunks carry that id: one with a clip marker, one
without. -/
def htmlIndirection : String :=
  "<script>\x7b\"title\":\"T4\",\"display_name\":\"A4\",\"metadata\":\x7b\"prompt\":\"$18\",\"tags\":\"rock\"\x7d\x7d</script><script>self.__next_f.push([1,\"18:Tc4,x \\\"clip\\\": persona words here extra\"])</script><script>self.__next_f.push([1,\"18:Tb3,These are the real lyric words of the song\"])</script>"

/-- Page whose candidate has no tags but a negative-tags value. -/
def htmlNegTags : String :=
  "<script>\x7b\"title\":\"T6\",\"display_name\":\"A6\",\"metadata\":\x7b\"prompt\":\"P6\",\"negative_tags\":\"trap, lo-fi\"\x7d\x7d</script>"

/-- Page whose accepted payload carries a numeric title. -/
def htmlNumTitle : String :=
  "<script>\x7b\"title\":5\x7d</script>"

/-- Page whose accepted payload carries an audio url needing cleaning. -/
def htmlRawAudio : String :=
  "<script>\x7b\"title\":\"T9\",\"audio_url\":\" u<b> \"\x7d</script>"

/-- Page without any structured payload. -/
def htmlPlain : String := "<p>no data</p>"

/-- Candidate resolved by the legacy strategy alone, as bound on lines
38-41 of the source. -/
def legacyCandidate (cs : List Char) : Option Json :=
  match strategy1 cs with
  | some j => songFromNext j
  | none => none

/-- Resolved state of the one-character page used as a witness input. -/
def resolvedZ : Resolved :=
  { title := none, artist := none, lyrics := none, styles := none,
    audio_url := none, sd := none, hasNextData := false, scriptCount := 0 }

/-- Response record of the one-character page used as a witness input. -/
def recordZ : ParseRecord :=
  { url := "uz", title := none, artist := none, lyrics := none, styles := none,
    audio_url := none, transcription_note := none, rawHtmlSnippet := "z",
    songData := none,
    debugInfo :=
      { hasNextData := false, scriptCount := 0, htmlLength := 1,
        titleFound := false, artistFound := false, lyricsFound := false,
        stylesFound := false, audioFound := false } }

/-! Theorems about the text cleaner, building to idempotence. -/

theorem contains_false_head {c a : Char} {l : List Char}
    (h : (c :: l).contains a = false) : c ≠ a := by
  intro hca
  subst hca
  simp [List.contains_cons] at h

theorem contains_false_tail {c a : Char} {l : List Char}
    (h : (c :: l).contains a = false) : l.contains a = false := by
  simp at h ⊢
  exact h.2

theorem contains_false_cons {c a : Char} {l : List Char}
    (h1 : c ≠ a) (h2 : l.contains a = false) : (c :: l).contains a = false := by
  simp at h2 ⊢
  exact ⟨fun hac => h1 hac.symm, h2⟩

theorem noTag_cons_ne {c : Char} (h : ¬c = '<') (l : List Char) :
    noTag (c :: l) = noTag l := by
  simp [noTag, h]

theorem noTag_lt_of_not_contains {l : List Char}
    (h : l.contains '>' = false) : noTag ('<' :: l) = true := by
  simp only [noTag, if_pos]
  split
  · exact absurd rfl (contains_false_head h)
  · rw [h]
    rfl

theorem noTag_lt_gt (l : List Char) : noTag ('<' :: '>' :: l) = noTag ('>' :: l) := by
  simp [noTag]

theorem noTag_of_not_contains : ∀ {l : List Char}, l.contains '>' = false → noTag l = true := by
  intro l
  induction l with
  | nil => intro _; rfl
  | cons c rest ih =>
    intro h
    by_cases hc : c = '<'
    · subst hc
      exact noTag_lt_of_not_contains (contains_false_tail h)
    · rw [noTag_cons_ne hc]
      exact ih (contains_false_tail h)

theorem noTag_tail {c : Char} {l : List Char} (h : noTag (c :: l) = true) :
    noTag l = true := by
  by_cases hc : c = '<'
  · subst hc
    cases l with
    | nil => rfl
    | cons d rest =>
      by_cases hd : d = '>'
      · subst hd
        rw [noTag_lt_gt] at h
        exact h
      · simp only [noTag, if_pos] at h
        split at h
        next tail heq => exact absurd (List.cons.inj heq).1 hd
        next =>
          rw [Bool.not_eq_eq_eq_not, Bool.not_true] at h
          exact noTag_of_not_contains h
  · rw [noTag_cons_ne hc] at h
    exact h

theorem noTag_append_right {a b : List Char} (h : noTag (a ++ b) = true) :
    noTag b = true := by
  induction a with
  | nil => exact h
  | cons c rest ih => exact ih (noTag_tail h)

theorem contains_rev_false {a : Char} {l : List Char} (h : l.contains a = false) :
    l.reverse.contains a = false := by
  simp at h ⊢
  exact h

theorem stripAux_nil (buf : List Char) : stripAux [] buf = buf.reverse := rfl

theorem stripAux_gt_big {rest buf : List Char} (h : ¬buf = ['<']) :
    stripAux ('>' :: rest) buf = stripTags rest := by
  simp [stripAux, h]

theorem stripAux_gt_one (rest : List Char) :
    stripAux ('>' :: rest) ['<'] = '<' :: '>' :: stripTags rest := by
  simp [stripAux]

theorem stripAux_cons {c : Char} (h : ¬c = '>') (rest buf : List Char) :
    stripAux (c :: rest) buf = stripAux rest (c :: buf) := by
  simp [stripAux, h]

theorem stripTags_lt (rest : List Char) : stripTags ('<' :: rest) = stripAux rest ['<'] := by
  simp [stripTags]

theorem stripTags_cons {c : Char} (h : ¬c = '<') (rest : List Char) :
    stripTags (c :: rest) = c :: stripTags rest := by
  simp [stripTags, h]

theorem noTag_buf_reverse {body : List Char} (hb : body.contains '>' = false) :
    noTag ((body ++ ['<']).reverse) = true := by
  rw [List.reverse_append]
  simp only [List.reverse_cons, List.reverse_nil, List.nil_append, List.singleton_append]
  exact noTag_lt_of_not_contains (contains_rev_false hb)

theorem stripAux_no_gt {cs : List Char} (h : cs.contains '>' = false) :
    ∀ buf : List Char, stripAux cs buf = buf.reverse ++ cs := by
  induction cs with
  | nil => intro buf; simp [stripAux]
  | cons c rest ih =>
    intro buf
    have hc : c ≠ '>' := contains_false_head h
    rw [stripAux_cons hc, ih (contains_false_tail h) (c :: buf)]
    simp

theorem stripTags_production :
    ∀ n : Nat, ∀ cs : List Char, cs.length ≤ n →
      noTag (stripTags cs) = true ∧
      ∀ body : List Char, body.contains '>' = false →
        noTag (stripAux cs (body ++ ['<'])) = true := by
  intro n
  induction n with
  | zero =>
    intro cs hlen
    have : cs = [] := List.eq_nil_of_length_eq_zero (Nat.le_zero.1 hlen)
    subst this
    exact ⟨rfl, fun body hb => by rw [stripAux_nil]; exact noTag_buf_reverse hb⟩
  | succ n ih =>
    intro cs hlen
    cases cs with
    | nil =>
      exact ⟨rfl, fun body hb => by rw [stripAux_nil]; exact noTag_buf_reverse hb⟩
    | cons c rest =>
      have hrest : rest.length ≤ n := by
        simp only [List.length_cons] at hlen
        omega
      constructor
      · by_cases hc : c = '<'
        · subst hc
          rw [stripTags_lt]
          have := (ih rest hrest).2 [] (by rfl)
          simpa using this
        · rw [stripTags_cons hc, noTag_cons_ne hc]
          exact (ih rest hrest).1
      · intro body hb
        by_cases hc : c = '>'
        · subst hc
          by_cases hbuf : body ++ ['<'] = ['<']
          · rw [hbuf, stripAux_gt_one, noTag_lt_gt, noTag_cons_ne (by decide)]
            exact (ih rest hrest).1
          · rw [stripAux_gt_big hbuf]
            exact (ih rest hrest).1
        · rw [stripAux_cons hc]
          have : c :: (body ++ ['<']) = (c :: body) ++ ['<'] := by simp
          rw [this]
          exact (ih rest hrest).2 (c :: body) (contains_false_cons hc hb)

theorem noTag_stripTags (cs : List Char) : noTag (stripTags cs) = true :=
  (stripTags_production cs.length cs (Nat.le_refl _)).1

theorem stripTags_eq_of_noTag : ∀ {cs : List Char}, noTag cs = true → stripTags cs = cs := by
  intro cs
  induction cs with
  | nil => intro _; rfl
  | cons c rest ih =>
    intro h
    by_cases hc : c = '<'
    · subst hc
      rw [stripTags_lt]
      cases rest with
      | nil => rfl
      | cons d rest2 =>
        by_cases hd : d = '>'
        · subst hd
          rw [noTag_lt_gt] at h
          have hrec : stripTags ('>' :: rest2) = '>' :: rest2 := ih h
          rw [stripTags_cons (by decide)] at hrec
          rw [stripAux_gt_one]
          injection hrec with _ h2
          rw [h2]
        · have hcont : (d :: rest2).contains '>' = false := by
            simp only [noTag, if_pos] at h
            split at h
            next tail heq => exact absurd (List.cons.inj heq).1 hd
            next =>
              rw [Bool.not_eq_eq_eq_not, Bool.not_true] at h
              exact h
          rw [stripAux_no_gt hcont]
          rfl
    · rw [stripTags_cons hc, ih (by rw [noTag_cons_ne hc] at h; exact h)]

theorem collapseWs_ws {c : Char} (h : isJsWhite c = true) (rest : List Char) :
    collapseWs (c :: rest) = ' ' :: wsSkip rest := by
  simp [collapseWs, h]

theorem collapseWs_nonws {c : Char} (h : isJsWhite c = false) (rest : List Char) :
    collapseWs (c :: rest) = c :: collapseWs rest := by
  simp [collapseWs, h]

theorem wsSkip_ws {c : Char} (h : isJsWhite c = true) (rest : List Char) :
    wsSkip (c :: rest) = wsSkip rest := by
  simp [wsSkip, h]

theorem wsSkip_nonws {c : Char} (h : isJsWhite c = false) (rest : List Char) :
    wsSkip (c :: rest) = c :: collapseWs rest := by
  simp [wsSkip, h]

theorem wsSkip_eq_dropWhile : ∀ l : List Char, wsSkip l = collapseWs (l.dropWhile isJsWhite) := by
  intro l
  induction l with
  | nil => rfl
  | cons c rest ih =>
    by_cases hc : isJsWhite c
    · rw [wsSkip_ws hc, List.dropWhile_cons_of_pos hc, ih]
    · rw [wsSkip_nonws (by simpa using hc), List.dropWhile_cons_of_neg hc,
        collapseWs_nonws (by simpa using hc)]

theorem spacedOk_cons {c : Char} {l : List Char} :
    spacedOk (c :: l) = ((!isJsWhite c || c = ' ') && spacedOk l) := by
  simp [spacedOk]

theorem spacedOk_collapse : ∀ l : List Char,
    spacedOk (collapseWs l) = true ∧ spacedOk (wsSkip l) = true := by
  intro l
  induction l with
  | nil => exact ⟨rfl, rfl⟩
  | cons c rest ih =>
    by_cases hc : isJsWhite c
    · refine ⟨?_, ?_⟩
      · rw [collapseWs_ws hc, spacedOk_cons]
        simp [ih.2]
      · rw [wsSkip_ws hc]
        exact ih.2
    · refine ⟨?_, ?_⟩
      · rw [collapseWs_nonws (by simpa using hc), spacedOk_cons]
        simp [ih.1, hc]
      · rw [wsSkip_nonws (by simpa using hc), spacedOk_cons]
        simp [ih.1, hc]

theorem collapseWs_head? (l : List Char) :
    (collapseWs l).head? = l.head?.map (fun c => if isJsWhite c then ' ' else c) := by
  cases l with
  | nil => rfl
  | cons c rest =>
    by_cases hc : isJsWhite c
    · rw [collapseWs_ws hc]
      simp [hc]
    · rw [collapseWs_nonws (by simpa using hc)]
      simp [hc]

theorem wsSkip_head_nonws : ∀ l : List Char, ∀ h : Char,
    (wsSkip l).head? = some h → isJsWhite h = false := by
  intro l
  induction l with
  | nil => intro h hh; simp [wsSkip] at hh
  | cons c rest ih =>
    intro h hh
    by_cases hc : isJsWhite c
    · rw [wsSkip_ws hc] at hh
      exact ih h hh
    · rw [wsSkip_nonws (by simpa using hc)] at hh
      simp at hh
      rw [← hh]
      simpa using hc

theorem chain_collapse : ∀ l : List Char,
    List.Chain' noAdjR (collapseWs l) ∧ List.Chain' noAdjR (wsSkip l) := by
  intro l
  induction l with
  | nil => exact ⟨List.chain'_nil, List.chain'_nil⟩
  | cons c rest ih =>
    by_cases hc : isJsWhite c
    · refine ⟨?_, ?_⟩
      · rw [collapseWs_ws hc]
        rw [List.chain'_cons']
        refine ⟨?_, ih.2⟩
        intro h hh
        have := wsSkip_head_nonws rest h hh
        intro hcontra
        rw [this] at hcontra
        exact absurd hcontra.2 (by simp)
      · rw [wsSkip_ws hc]
        exact ih.2
    · refine ⟨?_, ?_⟩
      · rw [collapseWs_nonws (by simpa using hc)]
        rw [List.chain'_cons']
        refine ⟨?_, ih.1⟩
        intro h _
        intro hcontra
        exact absurd hcontra.1 (by simpa using hc)
      · rw [wsSkip_nonws (by simpa using hc)]
        rw [List.chain'_cons']
        refine ⟨?_, ih.1⟩
        intro h _
        intro hcontra
        exact absurd hcontra.1 (by simpa using hc)

theorem contains_collapse {a : Char} (ha : ¬a = ' ') : ∀ l : List Char,
    l.contains a = false →
      (collapseWs l).contains a = false ∧ (wsSkip l).contains a = false := by
  intro l
  induction l with
  | nil => intro _; exact ⟨rfl, rfl⟩
  | cons c rest ih =>
    intro h
    have htail := contains_false_tail h
    have hhead := contains_false_head h
    by_cases hc : isJsWhite c
    · refine ⟨?_, ?_⟩
      · rw [collapseWs_ws hc]
        exact contains_false_cons (fun hsp => ha hsp.symm) (ih htail).2
      · rw [wsSkip_ws hc]
        exact (ih htail).2
    · refine ⟨?_, ?_⟩
      · rw [collapseWs_nonws (by simpa using hc)]
        exact contains_false_cons hhead (ih htail).1
      · rw [wsSkip_nonws (by simpa using hc)]
        exact contains_false_cons hhead (ih htail).1

theorem dropWhile_len_le (p : Char → Bool) (l : List Char) :
    (l.dropWhile p).length ≤ l.length := by
  induction l with
  | nil => simp [List.dropWhile]
  | cons c rest ih =>
    by_cases hp : p c
    · rw [List.dropWhile_cons_of_pos hp]
      simp only [List.length_cons]
      omega
    · rw [List.dropWhile_cons_of_neg hp]

theorem noTag_dropWhile (p : Char → Bool) :
    ∀ {l : List Char}, noTag l = true → noTag (l.dropWhile p) = true := by
  intro l
  induction l with
  | nil => intro _; rfl
  | cons c rest ih =>
    intro h
    by_cases hc : p c
    · rw [List.dropWhile_cons_of_pos hc]
      exact ih (noTag_tail h)
    · rw [List.dropWhile_cons_of_neg hc]
      exact h

theorem noTag_lt_cons {d : Char} (hd : ¬d = '>') (rest : List Char) :
    noTag ('<' :: d :: rest) = !(d :: rest).contains '>' := by
  simp only [noTag, if_pos]
  split
  next tail heq => exact absurd (List.cons.inj heq).1 hd
  next => rfl

theorem noTag_collapseWs : ∀ n : Nat, ∀ l : List Char, l.length ≤ n →
    noTag l = true → noTag (collapseWs l) = true := by
  intro n
  induction n with
  | zero =>
    intro l hlen _
    have : l = [] := List.eq_nil_of_length_eq_zero (Nat.le_zero.1 hlen)
    subst this
    rfl
  | succ n ih =>
    intro l hlen h
    cases l with
    | nil => rfl
    | cons c rest =>
      have hrest : rest.length ≤ n := by
        simp only [List.length_cons] at hlen
        omega
      by_cases hc : isJsWhite c
      · rw [collapseWs_ws hc, noTag_cons_ne (by decide), wsSkip_eq_dropWhile]
        have hlen2 : (rest.dropWhile isJsWhite).length ≤ n := by
          have := dropWhile_len_le isJsWhite rest
          omega
        exact ih _ hlen2 (noTag_dropWhile isJsWhite (noTag_tail h))
      · by_cases hlt : c = '<'
        · subst hlt
          rw [collapseWs_nonws (by simpa using hc)]
          cases rest with
          | nil => rfl
          | cons d rest2 =>
            by_cases hd : d = '>'
            · subst hd
              rw [collapseWs_nonws (by decide), noTag_lt_gt, noTag_cons_ne (by decide)]
              rw [noTag_lt_gt, noTag_cons_ne (by decide)] at h
              exact ih rest2 (by simp only [List.length_cons] at hlen; omega) h
            · rw [noTag_lt_cons hd] at h
              rw [Bool.not_eq_eq_eq_not, Bool.not_true] at h
              have hnc : ((d :: rest2).contains '>') = false := h
              have := (contains_collapse (by decide) (d :: rest2) hnc).1
              cases hcw : collapseWs (d :: rest2) with
              | nil => rfl
              | cons e t =>
                rw [hcw] at this
                exact noTag_lt_of_not_contains this
        · rw [collapseWs_nonws (by simpa using hc), noTag_cons_ne hlt]
          rw [noTag_cons_ne hlt] at h
          exact ih rest hrest h

theorem collapseNl_cons_ne {c : Char} (h : ¬c = '\n') (rest : List Char) :
    collapseNl (c :: rest) = c :: collapseNl rest := by
  simp [collapseNl, h]

theorem collapseNl_eq_of_no_nl : ∀ {l : List Char},
    l.contains '\n' = false → collapseNl l = l := by
  intro l
  induction l with
  | nil => intro _; rfl
  | cons c rest ih =>
    intro h
    rw [collapseNl_cons_ne (contains_false_head h), ih (contains_false_tail h)]

theorem no_nl_of_spacedOk {l : List Char} (h : spacedOk l = true) :
    l.contains '\n' = false := by
  induction l with
  | nil => rfl
  | cons c rest ih =>
    rw [spacedOk_cons, Bool.and_eq_true] at h
    refine contains_false_cons ?_ (ih h.2)
    intro hc
    subst hc
    exact absurd h.1 (by decide)

theorem all_dropWhile {p q : Char → Bool} {l : List Char} (h : l.all q = true) :
    (l.dropWhile p).all q = true := by
  induction l with
  | nil => exact h
  | cons c rest ih =>
    rw [List.all_cons, Bool.and_eq_true] at h
    by_cases hc : p c
    · rw [List.dropWhile_cons_of_pos hc]
      exact ih h.2
    · rw [List.dropWhile_cons_of_neg hc, List.all_cons, h.1]
      exact h.2

theorem chain_dropWhile {R : Char → Char → Prop} {p : Char → Bool} :
    ∀ {l : List Char}, List.Chain' R l → List.Chain' R (l.dropWhile p) := by
  intro l
  induction l with
  | nil => intro h; exact h
  | cons c rest ih =>
    intro h
    by_cases hc : p c
    · rw [List.dropWhile_cons_of_pos hc]
      exact ih h.tail
    · rw [List.dropWhile_cons_of_neg hc]
      exact h

theorem chain_reverse_noAdj {l : List Char} (h : List.Chain' noAdjR l) :
    List.Chain' noAdjR l.reverse := by
  rw [List.chain'_reverse]
  exact h.imp (fun a b hab => fun hc => hab ⟨hc.2, hc.1⟩)

theorem dropWhile_head_not {p : Char → Bool} :
    ∀ {l : List Char} {h : Char}, (l.dropWhile p).head? = some h → p h = false := by
  intro l
  induction l with
  | nil => intro h hh; simp [List.dropWhile] at hh
  | cons c rest ih =>
    intro h hh
    by_cases hc : p c
    · rw [List.dropWhile_cons_of_pos hc] at hh
      exact ih hh
    · rw [List.dropWhile_cons_of_neg hc] at hh
      simp at hh
      rw [← hh]
      simpa using hc

theorem dropWhile_eq_self_of_head {p : Char → Bool} {l : List Char}
    (h : ∀ x, l.head? = some x → p x = false) : l.dropWhile p = l := by
  cases l with
  | nil => rfl
  | cons c rest =>
    rw [List.dropWhile_cons_of_neg]
    rw [h c rfl]
    simp

theorem noTag_append_left : ∀ n : Nat, ∀ a b : List Char, a.length ≤ n →
    noTag (a ++ b) = true → noTag a = true := by
  intro n
  induction n with
  | zero =>
    intro a b hlen _
    have : a = [] := List.eq_nil_of_length_eq_zero (Nat.le_zero.1 hlen)
    subst this
    rfl
  | succ n ih =>
    intro a b hlen h
    cases a with
    | nil => rfl
    | cons c a2 =>
      have ha2 : a2.length ≤ n := by
        simp only [List.length_cons] at hlen
        omega
      by_cases hc : c = '<'
      · subst hc
        cases a2 with
        | nil => rfl
        | cons d a3 =>
          by_cases hd : d = '>'
          · subst hd
            rw [noTag_lt_gt, noTag_cons_ne (by decide)]
            rw [List.cons_append, List.cons_append, noTag_lt_gt,
              noTag_cons_ne (by decide)] at h
            exact ih a3 b (by simp only [List.length_cons] at hlen; omega) h
          · rw [noTag_lt_cons hd]
            rw [List.cons_append, List.cons_append, noTag_lt_cons hd] at h
            rw [Bool.not_eq_eq_eq_not, Bool.not_true] at h ⊢
            have : ((d :: a3) ++ b).contains '>' = false := by
              simpa using h
            simp at this ⊢
            exact ⟨this.1, this.2.1⟩
      · rw [noTag_cons_ne hc]
        rw [List.cons_append, noTag_cons_ne hc] at h
        exact ih a2 b ha2 h

theorem trimJs_prefix_decomp (l : List Char) :
    ∃ s, l.dropWhile isJsWhite = trimJs l ++ s := by
  refine ⟨((l.dropWhile isJsWhite).reverse.takeWhile isJsWhite).reverse, ?_⟩
  have h2 := List.takeWhile_append_dropWhile (p := isJsWhite)
    (l := (l.dropWhile isJsWhite).reverse)
  have h3 := congrArg List.reverse h2
  rw [List.reverse_append, List.reverse_reverse] at h3
  rw [trimJs]
  exact h3.symm

theorem spacedOk_reverse (l : List Char) : spacedOk l.reverse = spacedOk l := by
  simp [spacedOk]

theorem spacedOk_trimJs {l : List Char} (h : spacedOk l = true) :
    spacedOk (trimJs l) = true := by
  rw [trimJs, spacedOk_reverse]
  apply all_dropWhile
  show spacedOk (l.dropWhile isJsWhite).reverse = true
  rw [spacedOk_reverse]
  exact all_dropWhile h

theorem chain_trimJs {l : List Char} (h : List.Chain' noAdjR l) :
    List.Chain' noAdjR (trimJs l) := by
  rw [trimJs]
  exact chain_reverse_noAdj (chain_dropWhile (chain_reverse_noAdj (chain_dropWhile h)))

theorem noTag_trimJs {l : List Char} (h : noTag l = true) :
    noTag (trimJs l) = true := by
  obtain ⟨s, hs⟩ := trimJs_prefix_decomp l
  have hu : noTag (l.dropWhile isJsWhite) = true := noTag_dropWhile isJsWhite h
  rw [hs] at hu
  exact noTag_append_left (trimJs l).length (trimJs l) s (Nat.le_refl _) hu

theorem trimJs_dropWhile_self (l : List Char) :
    (trimJs l).dropWhile isJsWhite = trimJs l := by
  apply dropWhile_eq_self_of_head
  intro x hx
  obtain ⟨s, hs⟩ := trimJs_prefix_decomp l
  cases hv : trimJs l with
  | nil => rw [hv] at hx; simp at hx
  | cons y v2 =>
    rw [hv] at hx hs
    simp at hx
    have hhead : (l.dropWhile isJsWhite).head? = some y := by
      rw [hs]
      rfl
    rw [← hx]
    exact dropWhile_head_not hhead

theorem trimJs_rev_dropWhile_self (l : List Char) :
    (trimJs l).reverse.dropWhile isJsWhite = (trimJs l).reverse := by
  have hrev : (trimJs l).reverse = (l.dropWhile isJsWhite).reverse.dropWhile isJsWhite := by
    rw [trimJs, List.reverse_reverse]
  rw [hrev]
  apply dropWhile_eq_self_of_head
  intro x hx
  exact dropWhile_head_not hx

theorem trimJs_eq_self_of {l : List Char}
    (h1 : l.dropWhile isJsWhite = l)
    (h2 : l.reverse.dropWhile isJsWhite = l.reverse) : trimJs l = l := by
  rw [trimJs, h1, h2, List.reverse_reverse]

theorem collapseWs_eq_self : ∀ {l : List Char},
    spacedOk l = true → List.Chain' noAdjR l → collapseWs l = l := by
  intro l
  induction l with
  | nil => intro _ _; rfl
  | cons c rest ih =>
    intro hsp hch
    rw [spacedOk_cons, Bool.and_eq_true] at hsp
    by_cases hc : isJsWhite c
    · have hcs : c = ' ' := by
        have := hsp.1
        rw [hc] at this
        simpa using this
      rw [collapseWs_ws hc]
      cases rest with
      | nil => rw [hcs]; rfl
      | cons d rest2 =>
        have hd : isJsWhite d = false := by
          rw [List.chain'_cons'] at hch
          have := hch.1 d rfl
          by_cases hdd : isJsWhite d
          · exact absurd ⟨hc, hdd⟩ this
          · simpa using hdd
        rw [wsSkip_nonws hd]
        have := ih hsp.2 hch.tail
        rw [collapseWs_nonws hd] at this
        injection this with _ h2
        rw [h2, hcs]
    · rw [collapseWs_nonws (by simpa using hc)]
      rw [ih hsp.2 hch.tail]

theorem nbsp_eq_of_spacedOk {l : List Char} (h : spacedOk l = true) :
    nbspToSpace l = l := by
  induction l with
  | nil => rfl
  | cons c rest ih =>
    rw [spacedOk_cons, Bool.and_eq_true] at h
    show (if c = Char.ofNat 160 then ' ' else c) :: nbspToSpace rest = c :: rest
    rw [ih h.2]
    congr 1
    by_cases hc : c = Char.ofNat 160
    · exact absurd h.1 (by rw [hc]; decide)
    · rw [if_neg hc]

theorem cleanList_eq_trim_collapse (s : List Char) :
    cleanList s = trimJs (collapseWs (stripTags (nbspToSpace s))) := by
  rw [cleanList]
  rw [collapseNl_eq_of_no_nl
    (no_nl_of_spacedOk (spacedOk_collapse (stripTags (nbspToSpace s))).1)]

theorem cleanList_spacedOk (s : List Char) : spacedOk (cleanList s) = true := by
  rw [cleanList_eq_trim_collapse]
  exact spacedOk_trimJs (spacedOk_collapse _).1

theorem cleanList_chain (s : List Char) : List.Chain' noAdjR (cleanList s) := by
  rw [cleanList_eq_trim_collapse]
  exact chain_trimJs (chain_collapse _).1

theorem cleanList_noTag (s : List Char) : noTag (cleanList s) = true := by
  rw [cleanList_eq_trim_collapse]
  refine noTag_trimJs ?_
  exact noTag_collapseWs _ _ (Nat.le_refl _) (noTag_stripTags _)

theorem cleanList_idem (s : List Char) : cleanList (cleanList s) = cleanList s := by
  have hsp := cleanList_spacedOk s
  have hch := cleanList_chain s
  have hnt := cleanList_noTag s
  conv =>
    lhs
    rw [cleanList]
  rw [nbsp_eq_of_spacedOk hsp]
  rw [stripTags_eq_of_noTag hnt]
  rw [collapseWs_eq_self hsp hch]
  rw [collapseNl_eq_of_no_nl (no_nl_of_spacedOk hsp)]
  have h1 : (cleanList s).dropWhile isJsWhite = cleanList s := by
    rw [cleanList_eq_trim_collapse]
    exact trimJs_dropWhile_self _
  have h2 : (cleanList s).reverse.dropWhile isJsWhite = (cleanList s).reverse := by
    rw [cleanList_eq_trim_collapse]
    exact trimJs_rev_dropWhile_self _
  exact trimJs_eq_self_of h1 h2

/-! Structural facts about the resolution phase and the two handlers. -/

theorem truthy_jsOr_left {a b : Option Json} (h : truthy a = true) :
    truthy (jsOr a b) = true := by
  rw [jsOr, if_pos h]
  exact h

theorem truthy_enhancedLyrics (nd : Option Json) {lyr : Option Json}
    (h : truthy lyr = true) : truthy (enhancedLyrics nd lyr) = true := by
  simp only [enhancedLyrics]
  split
  · split
    · exact truthy_jsOr_left h
    · exact h
  · exact h

theorem truthy_lyrics0_of_prompt {sd : Option Json}
    (h : truthy (metadataPrompt sd) = true) : truthy (lyrics0 sd) = true := by
  rw [lyrics0]
  exact truthy_jsOr_left h

theorem lyricsInd_ok_of (cs : List Char) (sd lyr : Option Json)
    (himp : truthy (metadataPrompt sd) = true → truthy lyr = true) :
    lyricsInd cs sd lyr = Except.ok lyr := by
  rw [lyricsInd]
  by_cases hp : truthy (metadataPrompt sd) = true
  · have hc : (!truthy lyr && truthy (metadataPrompt sd)) = false := by
      rw [himp hp]
      rfl
    rw [hc]
    simp
  · have hp2 : truthy (metadataPrompt sd) = false := by simpa using hp
    have hc : (!truthy lyr && truthy (metadataPrompt sd)) = false := by
      rw [hp2]
      simp
    rw [hc]
    simp

theorem resolveAll_ok (cs : List Char) : ∃ st, resolveAll cs = Except.ok st := by
  rw [resolveAll]
  have hind := lyricsInd_ok_of cs (locate cs).1
    (enhancedLyrics (locate cs).2 (lyrics0 (locate cs).1))
    (fun hp => truthy_enhancedLyrics _ (truthy_lyrics0_of_prompt hp))
  rw [hind]
  exact ⟨_, rfl⟩

theorem cleanJs_ok_of_strOrNull {v : Option Json} (h : strOrNull v = true) :
    ∃ t, cleanJs v = Except.ok t := by
  cases v with
  | none => exact ⟨none, rfl⟩
  | some j =>
    cases j with
    | null => exact ⟨none, rfl⟩
    | str s => exact ⟨cleanO (some s), rfl⟩
    | bool b => exact absurd h (by simp [strOrNull])
    | num r => exact absurd h (by simp [strOrNull])
    | arr xs => exact absurd h (by simp [strOrNull])
    | obj kvs => exact absurd h (by simp [strOrNull])

theorem cleanJs_ne_badRegex (v : Option Json) :
    cleanJs v ≠ Except.error ParseErr.badRegex := by
  cases v with
  | none => simp [cleanJs]
  | some j => cases j <;> simp [cleanJs]

theorem genericScan_none_of_no_parse : ∀ scripts : List (List Char),
    anyScriptParses scripts = false → genericScan scripts = none := by
  intro scripts
  induction scripts with
  | nil => intro _; rfl
  | cons s rest ih =>
    intro h
    cases hc : scriptContent s with
    | none =>
      simp only [genericScan, anyScriptParses, hc] at h ⊢
      exact ih h
    | some content =>
      by_cases hb : (trimJs content).headD ' ' = '{'
      · cases hp : Json.parse (String.mk content) with
        | some j =>
          simp only [anyScriptParses, hc, hb, hp] at h
          simp at h
        | none =>
          simp only [genericScan, anyScriptParses, hc, hb, hp] at h ⊢
          exact ih (by simpa using h)
      · simp only [genericScan, anyScriptParses, hc] at h ⊢
        rw [if_neg hb]
        have hd : decide ((trimJs content).headD ' ' = '{') = false := by
          simpa using hb
        rw [hd] at h
        simp at h
        exact ih (by simpa using h)

theorem extract_notFound_of_no_payload (n u h : String)
    (hp : anyParsablePayload h.data = false) :
    isNotFoundB (extractHandler n u h) = true := by
  rw [anyParsablePayload] at hp
  simp only [Bool.or_eq_false_iff] at hp
  have hs1 : strategy1 h.data = none := by
    cases hq : strategy1 h.data with
    | none => rfl
    | some j =>
      rw [hq] at hp
      simp at hp
  have hg : genericScan (allScriptMatches h.data) = none :=
    genericScan_none_of_no_parse _ hp.2
  simp [extractHandler, hs1, hg, truthy, isNotFoundB]

theorem parse_ok_and_no_badRegex (n u h : String) :
    (fieldsStrOrNull h.data = true → isOkB (parseHandler n u h) = true) ∧
    parseHandler n u h ≠ Except.error ParseErr.badRegex := by
  obtain ⟨st, hst⟩ := resolveAll_ok h.data
  constructor
  · intro hf
    simp only [fieldsStrOrNull, hst, Bool.and_eq_true] at hf
    obtain ⟨⟨⟨h1, h2⟩, h3⟩, h4⟩ := hf
    obtain ⟨t, ht⟩ := cleanJs_ok_of_strOrNull h1
    obtain ⟨a, ha⟩ := cleanJs_ok_of_strOrNull h2
    obtain ⟨l, hl⟩ := cleanJs_ok_of_strOrNull h3
    obtain ⟨sy, hsy⟩ := cleanJs_ok_of_strOrNull h4
    simp only [parseHandler, hst, ht, ha, hl, hsy, isOkB]
  · intro hcontra
    simp only [parseHandler, hst] at hcontra
    cases hct : cleanJs st.title with
    | error e =>
      rw [hct] at hcontra
      cases e with
      | typeError => exact ParseErr.noConfusion (Except.error.inj hcontra)
      | badRegex => exact cleanJs_ne_badRegex st.title hct
    | ok t =>
      rw [hct] at hcontra
      cases hca : cleanJs st.artist with
      | error e =>
        rw [hca] at hcontra
        cases e with
        | typeError => exact ParseErr.noConfusion (Except.error.inj hcontra)
        | badRegex => exact cleanJs_ne_badRegex st.artist hca
      | ok a =>
        rw [hca] at hcontra
        cases hcl : cleanJs st.lyrics with
        | error e =>
          rw [hcl] at hcontra
          cases e with
          | typeError => exact ParseErr.noConfusion (Except.error.inj hcontra)
          | badRegex => exact cleanJs_ne_badRegex st.lyrics hcl
        | ok l =>
          rw [hcl] at hcontra
          cases hcs : cleanJs st.styles with
          | error e =>
            rw [hcs] at hcontra
            cases e with
            | typeError => exact ParseErr.noConfusion (Except.error.inj hcontra)
            | badRegex => exact cleanJs_ne_badRegex st.styles hcs
          | ok sy =>
            rw [hcs] at hcontra
            exact Except.noConfusion hcontra

theorem parse_fields_cleaned (n u h : String) (st : Resolved) (r : ParseRecord)
    (hst : resolveAll h.data = Except.ok st)
    (hr : parseHandler n u h = Except.ok r) :
    cleanJs st.title = Except.ok r.title ∧
    cleanJs st.artist = Except.ok r.artist ∧
    cleanJs st.lyrics = Except.ok r.lyrics ∧
    cleanJs st.styles = Except.ok r.styles ∧
    r.audio_url = st.audio_url := by
  simp only [parseHandler, hst] at hr
  cases hct : cleanJs st.title with
  | error e => rw [hct] at hr; exact absurd hr (by simp)
  | ok t =>
    rw [hct] at hr
    cases hca : cleanJs st.artist with
    | error e => rw [hca] at hr; exact absurd hr (by simp)
    | ok a =>
      rw [hca] at hr
      cases hcl : cleanJs st.lyrics with
      | error e => rw [hcl] at hr; exact absurd hr (by simp)
      | ok l =>
        rw [hcl] at hr
        cases hcs : cleanJs st.styles with
        | error e => rw [hcs] at hr; exact absurd hr (by simp)
        | ok sy =>
          rw [hcs] at hr
          have hrec := Except.ok.inj hr
          subst hrec
          exact ⟨rfl, rfl, rfl, rfl, rfl⟩

/-! Claim theorems. -/

/-- C1: first-match-wins fails on the code.  On a page whose legacy
payload resolves title T while a later generic script carries title X,
the returned title is X: the generic script scan has no guard on the
candidate being already set and overwrites the legacy candidate, so the
recorded behaviour contradicts the claim that the legacy value wins. -/
theorem c1_generic_scan_overwrites_legacy :
    Except.map ParseRecord.title (parseHandler "t1" "u1" htmlConflict) =
      Except.ok (some "X") ∧
    optGet (legacyCandidate htmlConflict.data) "title" = some (Json.str "T") ∧
    Except.map ParseRecord.title (parseHandler "t1" "u1" htmlConflict) ≠
      Except.ok (some "T") := by
  refine ⟨by rfl, by rfl, ?_⟩
  intro hcontra
  have h1 : Except.map ParseRecord.title (parseHandler "t1" "u1" htmlConflict) =
      Except.ok (some "X") := by rfl
  rw [h1] at hcontra
  simp at hcontra

/-- C2 counterexample: the pipeline throws for a non-transport reason.
A page whose accepted generic payload carries title 5 reaches the clean
helper with a truthy non-string: calling its replace member throws a
type error, which surfaces through the catch-all as the single
fetch-or-parse failure, refuting the claim that every HTML input yields
a record without throwing. -/
theorem c2_nonstring_field_throws :
    parseHandler "t2" "u2" htmlNumTitle = Except.error ParseErr.typeError := rfl

/-- C2 amended: the pipeline returns a record whenever every resolved
text field is a string or null, and the dynamic prompt-reference pattern
can never abort the request since its construction is unreachable: the
only thrown failure is the type error on truthy non-string fields. -/
theorem c2_no_throw_amended (n u h : String) :
    (fieldsStrOrNull h.data = true → isOkB (parseHandler n u h) = true) ∧
    parseHandler n u h ≠ Except.error ParseErr.badRegex :=
  parse_ok_and_no_badRegex n u h

/-- C2 witness: on a concrete page the hypothesis holds and the handler
returns a record. -/
theorem c2_no_throw_amended_witness : isOkB (parseHandler "tw" "uw" "q") = true :=
  (c2_no_throw_amended "tw" "uw" "q").1 (by rfl)

/-- C3: end-to-end scenario A.  On a page whose only embedded data is the
legacy payload with title T, artist A, prompt P and tags pop, the record
carries exactly those four values. -/
theorem c3_legacy_scenario_a :
    Except.map ParseRecord.title (parseHandler "t3" "u3" htmlLegacyA) =
      Except.ok (some "T") ∧
    Except.map ParseRecord.artist (parseHandler "t3" "u3" htmlLegacyA) =
      Except.ok (some "A") ∧
    Except.map ParseRecord.lyrics (parseHandler "t3" "u3" htmlLegacyA) =
      Except.ok (some "P") ∧
    Except.map ParseRecord.styles (parseHandler "t3" "u3" htmlLegacyA) =
      Except.ok (some "pop") :=
  ⟨rfl, rfl, rfl, rfl⟩

/-- C4: the prompt-reference resolution never runs.  On a page whose
candidate prompt is the indirection marker and whose chunks carry the
referenced id, one with a clip marker and one without, the returned
lyrics value is the literal marker itself rather than the text of the
chunk without the clip marker: line 128 already assigned the truthy
marker to the lyrics value, so the guard of the resolution block is
always false and the documented chunk selection is dead code. -/
theorem c4_indirection_unreachable_eval :
    Except.map ParseRecord.lyrics (parseHandler "t4" "u4" htmlIndirection) =
      Except.ok (some "$18") ∧
    Except.map ParseRecord.lyrics (parseHandler "t4" "u4" htmlIndirection) ≠
      Except.ok (some "These are the real lyric words of the song") := by
  refine ⟨by rfl, ?_⟩
  intro hcontra
  have h1 : Except.map ParseRecord.lyrics (parseHandler "t4" "u4" htmlIndirection) =
      Except.ok (some "$18") := by rfl
  rw [h1] at hcontra
  simp at hcontra

/-- C5: strict extraction refuses to produce a record without a parsed
structured payload.  When no payload of the page parses, the extract
route answers with the distinct not-found result; contrapositively a
record is produced only when at least one structured payload parsed. -/
theorem c5_strict_mode_not_found (n u h : String)
    (hp : anyParsablePayload h.data = false) :
    isNotFoundB (extractHandler n u h) = true :=
  extract_notFound_of_no_payload n u h hp

/-- C5 witness: a plain page with no scripts satisfies the hypothesis and
receives the not-found result. -/
theorem c5_strict_mode_not_found_witness :
    anyParsablePayload htmlPlain.data = false ∧
    isNotFoundB (extractHandler "t0" "u0" htmlPlain) = true :=
  ⟨by rfl, c5_strict_mode_not_found "t0" "u0" htmlPlain (by rfl)⟩

/-- C6: negative-tags synthesis.  On a page whose candidate has no
display_tags and no metadata tags but negative tags trap, lo-fi, the
resolved styles value is the exclusion string, which holds the NOT
marker and the original negative-tags text. -/
theorem c6_negative_tags_synthesis :
    Except.map ParseRecord.styles (parseHandler "t6" "u6" htmlNegTags) =
      Except.ok (some "NOT: trap, lo-fi") ∧
    containsSub ("NOT:").data ("NOT: trap, lo-fi").data = true ∧
    containsSub ("trap, lo-fi").data ("NOT: trap, lo-fi").data = true :=
  ⟨rfl, rfl, rfl⟩

/-- C7: the cleaner is idempotent on every nullable string. -/
theorem c7_clean_idempotent (s : Option String) : cleanO (cleanO s) = cleanO s := by
  cases s with
  | none => rfl
  | some t =>
    by_cases hnil : cleanList t.data = []
    · simp [cleanO, hnil]
    · show cleanO (cleanO (some t)) = cleanO (some t)
      simp only [cleanO, if_neg hnil]
      rw [cleanList_idem, if_neg hnil]

/-- C8 counterexample: a run of four newlines does not survive as a
double newline; the whitespace collapse runs first and leaves a single
space, so the cleaned text holds no newline at all. -/
theorem c8_newline_run_collapsed_cex :
    cleanO (some "a\n\n\n\nb") = some "a b" ∧
    ("a b").data.contains '\n' = false :=
  ⟨rfl, by decide⟩

/-- C8 amended: the cleaner replaces non-breaking spaces, strips tags,
collapses every whitespace run, newlines included, to one space, trims,
and maps empty results to null; since the whitespace collapse runs before
the newline rule, no newline survives into any output. -/
theorem c8_clean_behaviour_amended :
    (∀ s : String, allWsSpaces (cleanO (some s)) = true) ∧
    cleanO (some "<i>a</i>  b") = some "a b" ∧
    cleanO (some "   ") = none ∧
    cleanO (some "  a  ") = some "a" ∧
    cleanO none = none := by
  refine ⟨?_, rfl, rfl, rfl, rfl⟩
  intro s
  cases hv : cleanO (some s) with
  | none => rfl
  | some y =>
    by_cases hnil : cleanList s.data = []
    · simp only [cleanO, if_pos hnil] at hv
      exact absurd hv (by simp)
    · simp only [cleanO, if_neg hnil] at hv
      have hy : y = String.mk (cleanList s.data) := (Option.some.inj hv).symm
      subst hy
      show spacedOk (String.mk (cleanList s.data)).data = true
      exact cleanList_spacedOk s.data

/-- C9 counterexample: the audio url is sent without cleaning.  On a page
whose payload carries an audio url with surrounding spaces and a tag, the
response echoes the raw value although cleaning it would give a different
string, refuting the claim that every resolved field passes through the
cleaner. -/
theorem c9_audio_url_not_cleaned_cex :
    Except.map ParseRecord.audio_url (parseHandler "t9" "u9" htmlRawAudio) =
      Except.ok (some (Json.str " u<b> ")) ∧
    cleanJs (some (Json.str " u<b> ")) = Except.ok (some "u") ∧
    (" u<b> " : String) ≠ "u" :=
  ⟨rfl, rfl, by decide⟩

/-- C9 amended: the four text fields title, artist, lyrics and styles of
a successful response are exactly the cleaned forms of the resolved
values, while the audio url is included verbatim without cleaning. -/
theorem c9_text_fields_cleaned_amended (n u h : String) (st : Resolved)
    (r : ParseRecord) (hst : resolveAll h.data = Except.ok st)
    (hr : parseHandler n u h = Except.ok r) :
    cleanJs st.title = Except.ok r.title ∧
    cleanJs st.artist = Except.ok r.artist ∧
    cleanJs st.lyrics = Except.ok r.lyrics ∧
    cleanJs st.styles = Except.ok r.styles ∧
    r.audio_url = st.audio_url :=
  parse_fields_cleaned n u h st r hst hr

/-- C9 witness: on a one-character page the hypotheses hold with the
stated resolved values and record. -/
theorem c9_text_fields_cleaned_amended_witness :
    resolveAll ("z").data = Except.ok resolvedZ ∧
    parseHandler "tz" "uz" "z" = Except.ok recordZ ∧
    (cleanJs resolvedZ.title = Except.ok recordZ.title ∧
     cleanJs resolvedZ.artist = Except.ok recordZ.artist ∧
     cleanJs resolvedZ.lyrics = Except.ok recordZ.lyrics ∧
     cleanJs resolvedZ.styles = Except.ok recordZ.styles ∧
     recordZ.audio_url = resolvedZ.audio_url) :=
  ⟨rfl, rfl,
    c9_text_fields_cleaned_amended "tz" "uz" "z" resolvedZ recordZ rfl rfl⟩

/-- C10: the parse route is deterministic in the page content: its result
does not depend on the ambient clock, which only the extract route
reads, so two runs over the same fetched text give the same record. -/
theorem c10_parse_deterministic (now1 now2 u h : String) :
    parseHandler now1 u h = parseHandler now2 u h := rfl

end SunoParse
